import Mathlib

/-!
Verification of the moon API test framework's stateful test-execution
orchestrator (scripts/api-test/lib/test_runner.py together with the
shared libraries scripts/lib/placeholders.py, scripts/lib/auth.py and
scripts/lib/formatters.py, the most complete variant of each evolving
file).

Strings are modelled as `List Char`; Python's `str.replace` is modelled
by `pyReplace` below, including CPython's behaviour on an empty pattern.
JSON bodies are modelled by the inductive `JValue`; JSON-serialised
dictionaries are association lists in insertion order, matching Python
dict semantics.
-/

namespace Moon

/-- A Python string, modelled as its list of characters. -/
abbrev Str := List Char

/-- Fuel-indexed worker for `pyReplace`; the fuel strictly exceeds the text
length in every reachable call, so the `0` case is never taken. -/
def pyReplaceF : Nat → Str → Str → Str → Str
  | 0, s, _, _ => s
  | fuel + 1, s, t, p =>
    if t ≠ [] ∧ t.isPrefixOf s then
      p ++ pyReplaceF fuel (s.drop t.length) t p
    else
      match s with
      | [] => if t.isEmpty then p else []
      | c :: rest => (if t.isEmpty then p else []) ++ c :: pyReplaceF fuel rest t p

/-- Python's `s.replace(t, p)`: leftmost, non-overlapping replacement of
every occurrence of `t` in `s` by `p`.  When `t` is empty, CPython
inserts `p` before every character and at the end; the definition mirrors
that, although the framework never calls `replace` with an empty pattern
except possibly for the server URL. -/
def pyReplace (s t p : Str) : Str := pyReplaceF (s.length + 1) s t p

/-- One-step unfolding of the worker at positive fuel. -/
theorem pyReplaceF_succ (fuel : Nat) (s t p : Str) :
    pyReplaceF (fuel + 1) s t p =
      if t ≠ [] ∧ t.isPrefixOf s then
        p ++ pyReplaceF fuel (s.drop t.length) t p
      else
        match s with
        | [] => if t.isEmpty then p else []
        | c :: rest => (if t.isEmpty then p else []) ++ c :: pyReplaceF fuel rest t p := rfl

/-- The worker ignores the exact fuel once it exceeds the text length. -/
theorem pyReplaceF_fuel : ∀ (f1 f2 : Nat) (s t p : Str),
    s.length < f1 → s.length < f2 → pyReplaceF f1 s t p = pyReplaceF f2 s t p := by
  intro f1
  induction f1 with
  | zero => intro f2 s t p h1 _; omega
  | succ f ih =>
    intro f2 s t p h1 h2
    match f2 with
    | 0 => omega
    | f2' + 1 =>
      show pyReplaceF (f + 1) s t p = pyReplaceF (f2' + 1) s t p
      rw [pyReplaceF_succ, pyReplaceF_succ]
      by_cases hc : t ≠ [] ∧ t.isPrefixOf s
      · rw [if_pos hc, if_pos hc]
        have hne : t ≠ [] := hc.1
        have hpre : t <+: s := List.isPrefixOf_iff_prefix.mp hc.2
        have ht1 : 1 ≤ t.length := by
          cases t with
          | nil => exact absurd rfl hne
          | cons a b => simp
        have hts : t.length ≤ s.length := hpre.length_le
        have hs1 : s.length ≠ 0 := by omega
        have hlt1 : (s.drop t.length).length < f := by
          simp only [List.length_drop]; omega
        have hlt2 : (s.drop t.length).length < f2' := by
          simp only [List.length_drop]; omega
        rw [ih f2' _ t p hlt1 hlt2]
      · rw [if_neg hc, if_neg hc]
        match s with
        | [] => rfl
        | c :: rest =>
          have hr1 : rest.length < f := by
            simp at h1; omega
          have hr2 : rest.length < f2' := by
            simp at h2; omega
          show (if t.isEmpty then p else []) ++ c :: pyReplaceF f rest t p =
            (if t.isEmpty then p else []) ++ c :: pyReplaceF f2' rest t p
          rw [ih f2' rest t p hr1 hr2]

/-- Unfolding `pyReplace` when the pattern is a prefix of the text. -/
theorem pyReplace_pos {s t : Str} (p : Str) (ht : t ≠ []) (hpre : t <+: s) :
    pyReplace s t p = p ++ pyReplace (s.drop t.length) t p := by
  show pyReplaceF (s.length + 1) s t p = _
  rw [pyReplaceF_succ, if_pos ⟨ht, List.isPrefixOf_iff_prefix.mpr hpre⟩]
  have ht1 : 1 ≤ t.length := by
    cases t with
    | nil => exact absurd rfl ht
    | cons a b => simp
  have hts : t.length ≤ s.length := hpre.length_le
  have h1 : (s.drop t.length).length < s.length := by
    simp only [List.length_drop]; omega
  rw [pyReplaceF_fuel s.length ((s.drop t.length).length + 1) _ t p h1 (by omega)]
  rfl

/-- Unfolding `pyReplace` on the empty text with a non-empty pattern. -/
theorem pyReplace_nil {t : Str} (p : Str) (ht : t ≠ []) :
    pyReplace [] t p = [] := by
  show pyReplaceF 1 [] t p = []
  rw [pyReplaceF_succ]
  have : ¬ (t ≠ [] ∧ t.isPrefixOf ([] : Str)) := by
    rintro ⟨h1, h2⟩
    exact h1 (List.prefix_nil.mp (List.isPrefixOf_iff_prefix.mp h2))
  rw [if_neg this]
  simp [List.isEmpty_iff, ht]

/-- Unfolding `pyReplace` on a cons cell the pattern does not start. -/
theorem pyReplace_neg {s t : Str} (p : Str) {c : Char} {rest : Str}
    (ht : t ≠ []) (hs : s = c :: rest) (hpre : ¬ t <+: s) :
    pyReplace s t p = c :: pyReplace rest t p := by
  subst hs
  show pyReplaceF ((c :: rest).length + 1) (c :: rest) t p = _
  rw [pyReplaceF_succ]
  have hcond : ¬ (t ≠ [] ∧ t.isPrefixOf (c :: rest)) := by
    rintro ⟨h1, h2⟩
    exact hpre (List.isPrefixOf_iff_prefix.mp h2)
  rw [if_neg hcond]
  simp only [List.isEmpty_iff, ht, if_neg, List.nil_append]
  have : pyReplaceF (c :: rest).length rest t p = pyReplaceF (rest.length + 1) rest t p :=
    pyReplaceF_fuel _ _ rest t p (by simp) (by omega)
  rw [this]
  rfl

/-- Replacing a pattern that does not occur leaves the text unchanged. -/
theorem pyReplace_id {t p : Str} (ht : t ≠ []) :
    ∀ s : Str, ¬ t <:+: s → pyReplace s t p = s := by
  have H : ∀ n (s : Str), s.length = n → ¬ t <:+: s → pyReplace s t p = s := by
    intro n
    induction n using Nat.strongRecOn with
    | ind n ih =>
      intro s hn hni
      by_cases hpre : t <+: s
      · exact absurd hpre.isInfix hni
      · match s, hn with
        | [], _ => exact pyReplace_nil p ht
        | c :: rest, hn =>
          rw [pyReplace_neg p ht rfl hpre]
          have : ¬ t <:+: rest := fun h => hni (List.infix_cons h)
          rw [ih rest.length (by simp [← hn]) rest rfl this]
  exact fun s => H s.length s rfl

/-- An occurrence inside an appended pair either lies in the right part or
touches a character of the left part. -/
theorem infix_append_chars {t x y : Str} (h : t <:+: x ++ y) :
    t <:+: y ∨ ∃ c ∈ t, c ∈ x := by
  induction x with
  | nil => exact Or.inl (by simpa using h)
  | cons a x' ih =>
    rw [List.cons_append, List.infix_cons_iff] at h
    rcases h with h | h
    · rcases List.prefix_cons_iff.mp h with h0 | ⟨t', rfl, _⟩
      · exact Or.inl (h0 ▸ List.nil_infix)
      · exact Or.inr ⟨a, List.mem_cons_self a t', List.mem_cons_self a x'⟩
    · rcases ih h with h | ⟨c, hc, hcx⟩
      · exact Or.inl h
      · exact Or.inr ⟨c, hc, List.mem_cons_of_mem a hcx⟩

/-- A non-empty string whose characters avoid the replacement string is a
prefix of a replaced text only if it was a prefix of the original text. -/
theorem prefix_of_prefix_pyReplace {t p : Str} (ht : t ≠ []) (hp : p ≠ []) :
    ∀ (u s : Str), (∀ c ∈ u, c ∉ p) → u ≠ [] → u <+: pyReplace s t p → u <+: s := by
  have H : ∀ n (u s : Str), s.length = n → (∀ c ∈ u, c ∉ p) → u ≠ [] →
      u <+: pyReplace s t p → u <+: s := by
    intro n
    induction n using Nat.strongRecOn with
    | ind n ih =>
      intro u s hn hdisj hu hpr
      by_cases hpre : t <+: s
      · rw [pyReplace_pos p ht hpre] at hpr
        match u, p, hpr with
        | c :: u', d :: p', hpr =>
          rw [List.cons_append] at hpr
          have hcd : c = d := (List.cons_prefix_cons.mp hpr).1
          exact absurd (hcd ▸ List.mem_cons_self d p') (hdisj c (List.mem_cons_self c u'))
      · match s, hn with
        | [], _ =>
          rw [pyReplace_nil p ht] at hpr
          exact absurd (List.prefix_nil.mp hpr) hu
        | c :: rest, hn =>
          rw [pyReplace_neg p ht rfl hpre] at hpr
          rcases List.prefix_cons_iff.mp hpr with h0 | ⟨u', rfl, hu'⟩
          · exact absurd h0 hu
          · rcases eq_or_ne u' [] with rfl | hne
            · simpa using List.cons_prefix_cons.mpr ⟨rfl, List.nil_prefix⟩
            · have hd' : ∀ e ∈ u', e ∉ p := fun e he => hdisj e (List.mem_cons_of_mem c he)
              have := ih rest.length (by simp [← hn]) u' rest rfl hd' hne hu'
              exact List.cons_prefix_cons.mpr ⟨rfl, this⟩
  exact fun u s => H s.length u s rfl

/-- Replacement removes every occurrence of the pattern, provided the
replacement string is non-empty and shares no character with the pattern. -/
theorem not_infix_pyReplace_self {t p : Str} (ht : t ≠ []) (hp : p ≠ [])
    (hdisj : ∀ c ∈ t, c ∉ p) :
    ∀ s : Str, ¬ t <:+: pyReplace s t p := by
  have H : ∀ n (s : Str), s.length = n → ¬ t <:+: pyReplace s t p := by
    intro n
    induction n using Nat.strongRecOn with
    | ind n ih =>
      intro s hn hbad
      by_cases hpre : t <+: s
      · rw [pyReplace_pos p ht hpre] at hbad
        rcases infix_append_chars hbad with h | ⟨c, hc, hcp⟩
        · have hlt : (s.drop t.length).length < n := by
            have h1 : 1 ≤ t.length := by
              cases t with
              | nil => exact absurd rfl ht
              | cons a b => simp
            have h2 : t.length ≤ s.length := hpre.length_le
            simp only [List.length_drop]
            omega
          exact ih _ hlt _ rfl h
        · exact hdisj c hc hcp
      · match s, hn with
        | [], _ =>
          rw [pyReplace_nil p ht] at hbad
          exact ht (List.infix_nil.mp hbad)
        | c :: rest, hn =>
          rw [pyReplace_neg p ht rfl hpre] at hbad
          rcases List.infix_cons_iff.mp hbad with h | h
          · rcases List.prefix_cons_iff.mp h with h0 | ⟨t', het, ht'⟩
            · exact ht h0
            · rcases eq_or_ne t' [] with rfl | hne
              · exact hpre (het ▸ List.cons_prefix_cons.mpr ⟨rfl, List.nil_prefix⟩)
              · have hd' : ∀ e ∈ t', e ∉ p := fun e he =>
                  hdisj e (het ▸ List.mem_cons_of_mem c he)
                have := prefix_of_prefix_pyReplace ht hp t' rest hd' hne ht'
                exact hpre (het ▸ List.cons_prefix_cons.mpr ⟨rfl, this⟩)
          · exact ih rest.length (by simp [← hn]) rest rfl h
  exact fun s => H s.length s rfl

/-- Replacing a different pattern cannot re-create an occurrence of a string
whose characters avoid the replacement string. -/
theorem not_infix_pyReplace_other {t t2 q : Str} (ht : t ≠ []) (ht2 : t2 ≠ [])
    (hq : q ≠ []) (hdisj : ∀ c ∈ t, c ∉ q) :
    ∀ s : Str, ¬ t <:+: s → ¬ t <:+: pyReplace s t2 q := by
  have H : ∀ n (s : Str), s.length = n → ¬ t <:+: s → ¬ t <:+: pyReplace s t2 q := by
    intro n
    induction n using Nat.strongRecOn with
    | ind n ih =>
      intro s hn hns hbad
      by_cases hpre : t2 <+: s
      · rw [pyReplace_pos q ht2 hpre] at hbad
        have hnd : ¬ t <:+: s.drop t2.length :=
          fun h => hns (h.trans (List.drop_suffix t2.length s).isInfix)
        rcases infix_append_chars hbad with h | ⟨c, hc, hcq⟩
        · have hlt : (s.drop t2.length).length < n := by
            have h1 : 1 ≤ t2.length := by
              cases t2 with
              | nil => exact absurd rfl ht2
              | cons a b => simp
            have h2 : t2.length ≤ s.length := hpre.length_le
            simp only [List.length_drop]
            omega
          exact ih _ hlt _ rfl hnd h
        · exact hdisj c hc hcq
      · match s, hn with
        | [], _ =>
          rw [pyReplace_nil q ht2] at hbad
          exact ht (List.infix_nil.mp hbad)
        | c :: rest, hn =>
          rw [pyReplace_neg q ht2 rfl hpre] at hbad
          have hnr : ¬ t <:+: rest := fun h => hns (List.infix_cons h)
          rcases List.infix_cons_iff.mp hbad with h | h
          · rcases List.prefix_cons_iff.mp h with h0 | ⟨t', het, ht'⟩
            · exact ht h0
            · rcases eq_or_ne t' [] with rfl | hne
              · exact hns (het ▸ (List.cons_prefix_cons.mpr ⟨rfl, List.nil_prefix⟩).isInfix)
              · have hd' : ∀ e ∈ t', e ∉ q := fun e he =>
                  hdisj e (het ▸ List.mem_cons_of_mem c he)
                have := prefix_of_prefix_pyReplace ht2 hq t' rest hd' hne ht'
                exact hns (het ▸ (List.cons_prefix_cons.mpr ⟨rfl, this⟩).isInfix)
          · exact ih rest.length (by simp [← hn]) rest rfl hnr h
  exact fun s => H s.length s rfl

/-- A prefix of an appended pair is a prefix of the left part or extends it. -/
theorem prefix_append_cases {u x y : Str} (h : u <+: x ++ y) :
    u <+: x ∨ ∃ r, u = x ++ r ∧ r <+: y := by
  induction x generalizing u with
  | nil => exact Or.inr ⟨u, by simp, by simpa using h⟩
  | cons a x' ih =>
    rw [List.cons_append] at h
    rcases List.prefix_cons_iff.mp h with h0 | ⟨u', rfl, hu'⟩
    · exact Or.inl (h0 ▸ List.nil_prefix)
    · rcases ih hu' with h1 | ⟨r, rfl, hr⟩
      · exact Or.inl (List.cons_prefix_cons.mpr ⟨rfl, h1⟩)
      · exact Or.inr ⟨r, by simp, hr⟩

/-- An occurrence inside an appended pair lies in the left part, in the right
part, or crosses the boundary with non-empty pieces on both sides. -/
theorem infix_append_split {t x y : Str} (h : t <:+: x ++ y) :
    t <:+: x ∨ t <:+: y ∨
      ∃ t1 t2, t = t1 ++ t2 ∧ t1 ≠ [] ∧ t2 ≠ [] ∧ t1 <:+ x ∧ t2 <+: y := by
  induction x generalizing t with
  | nil => exact Or.inr (Or.inl (by simpa using h))
  | cons a x' ih =>
    rw [List.cons_append] at h
    rcases List.infix_cons_iff.mp h with h | h
    · rcases List.prefix_cons_iff.mp h with h0 | ⟨t', rfl, ht'⟩
      · exact Or.inl (h0 ▸ List.nil_infix)
      · rcases prefix_append_cases ht' with h1 | ⟨r, rfl, hr⟩
        · exact Or.inl (List.cons_prefix_cons.mpr ⟨rfl, h1⟩).isInfix
        · rcases eq_or_ne r [] with rfl | hrne
          · exact Or.inl (by simpa using (List.prefix_refl (a :: x')).isInfix)
          · exact Or.inr (Or.inr ⟨a :: x', r, by simp, by simp, hrne,
              List.suffix_refl (a :: x'), hr⟩)
    · rcases ih h with h1 | h1 | ⟨t1, t2, rfl, h2, h3, h4, h5⟩
      · exact Or.inl (List.infix_cons h1)
      · exact Or.inr (Or.inl h1)
      · exact Or.inr (Or.inr ⟨t1, t2, rfl, h2, h3, h4.trans (List.suffix_cons a x'), h5⟩)

/-- A prefix of the text survives a replacement when no occurrence of the
pattern begins strictly inside the prefix region. -/
theorem prefix_pyReplace_of_no_early {t2 q : Str} (ht2 : t2 ≠ []) :
    ∀ (u s : Str), u <+: s →
      (∀ x v, s = x ++ v → x.length < u.length → ¬ t2 <+: v) →
      u <+: pyReplace s t2 q := by
  intro u
  induction u with
  | nil => intro s _ _; exact List.nil_prefix
  | cons d u' ih =>
    intro s hu hcond
    obtain ⟨w, rfl⟩ := hu
    have hnp : ¬ t2 <+: (d :: u') ++ w := by
      intro hbad
      exact hcond [] ((d :: u') ++ w) rfl (by simp) hbad
    rw [List.cons_append] at hnp ⊢
    rw [pyReplace_neg q ht2 rfl hnp]
    refine List.cons_prefix_cons.mpr ⟨rfl, ih (u' ++ w) (List.prefix_append u' w) ?_⟩
    intro x v hxv hlen
    exact hcond (d :: x) v (by simp [hxv]) (by simpa using hlen)

/-- Characters of a dollar-headed pattern: the head is the only dollar. -/
theorem dollar_infix_dollar {a b : Str} (hb : '$' ∉ b)
    (h : ('$' :: a) <:+: ('$' :: b)) : ('$' :: a) <+: ('$' :: b) := by
  obtain ⟨u, v, huv⟩ := h
  cases u with
  | nil => exact ⟨v, by simpa using huv⟩
  | cons e u' =>
    rw [List.cons_append, List.cons_append] at huv
    have he : e = '$' := (List.cons.injEq _ _ _ _).mp huv |>.1
    have hbmem : ('$' : Char) ∈ b := by
      have hb' : b = u' ++ ('$' :: a) ++ v := ((List.cons.injEq _ _ _ _).mp huv).2.symm
      rw [hb']
      simp
    exact absurd hbmem hb

/-- An occurrence of one dollar-headed pattern survives the replacement of a
different dollar-headed pattern, whatever the replacement string: distinct
dollar-headed patterns, neither a prefix of the other, can never overlap. -/
theorem infix_pyReplace_dollar {a b q : Str} (ha : '$' ∉ a) (hb : '$' ∉ b)
    (h1 : ¬ ('$' :: b) <+: ('$' :: a)) (h2 : ¬ ('$' :: a) <+: ('$' :: b)) :
    ∀ s : Str, ('$' :: a) <:+: s → ('$' :: a) <:+: pyReplace s ('$' :: b) q := by
  have H : ∀ n (s : Str), s.length = n → ('$' :: a) <:+: s →
      ('$' :: a) <:+: pyReplace s ('$' :: b) q := by
    intro n
    induction n using Nat.strongRecOn with
    | ind n ih =>
      intro s hn hocc
      by_cases hpre : ('$' :: b) <+: s
      · rw [pyReplace_pos q (by simp) hpre]
        obtain ⟨w, hw⟩ := hpre
        have hdrop : s.drop ('$' :: b).length = w := by
          rw [← hw]; simp
        rw [← hw] at hocc
        rcases infix_append_split hocc with hc | hc | ⟨t1, t2, heq, ht1, ht2, hsuf, hprf⟩
        · exact absurd (dollar_infix_dollar hb hc) h2
        · have hlt : w.length < n := by
            rw [← hn, ← hw]; simp; omega
          have := ih w.length hlt w rfl hc
          rw [hdrop]
          exact this.trans (List.suffix_append q _).isInfix
        · exfalso
          rcases List.suffix_cons_iff.mp hsuf with hfull | hsb
          · exact h1 (hfull ▸ heq ▸ List.prefix_append t1 t2)
          · match t1, ht1, heq with
            | e :: t1', _, heq =>
              have he : '$' = e := ((List.cons.injEq _ _ _ _).mp heq).1
              have hmem : ('$' : Char) ∈ e :: t1' := by
                rw [he]; exact List.mem_cons_self _ _
              exact hb (hsb.subset hmem)
      · match s, hn with
        | [], _ => exact absurd hocc (by simp)
        | c :: rest, hn =>
          rw [pyReplace_neg q (by simp) rfl hpre]
          rcases List.infix_cons_iff.mp hocc with hp | hp
          · have hc : c = '$' := ((List.cons_prefix_cons.mp hp).1).symm
            have hap : a <+: rest := (List.cons_prefix_cons.mp hp).2
            obtain ⟨w, hw⟩ := hap
            have : a <+: pyReplace rest ('$' :: b) q := by
              refine prefix_pyReplace_of_no_early (by simp) a rest ⟨w, hw⟩ ?_
              intro x v hxv hlen hbad
              have hxa : x <+: a := by
                refine List.prefix_of_prefix_length_le ⟨v, hxv.symm⟩ ⟨w, hw⟩ ?_
                omega
              obtain ⟨a', ha'⟩ := hxa
              have ha'ne : a' ≠ [] := by
                intro h0
                rw [h0, List.append_nil] at ha'
                rw [← ha'] at hlen
                omega
              have hv : v = a' ++ w := by
                have : x ++ v = x ++ (a' ++ w) := by
                  rw [hxv.symm, ← hw, ← ha', List.append_assoc]
                exact List.append_cancel_left this
              match a', ha'ne, hv with
              | f :: a'', _, hv =>
                have hf : f = '$' := by
                  have := hbad
                  rw [hv] at this
                  exact ((List.cons_prefix_cons.mp this).1).symm
                have hmem : ('$' : Char) ∈ x ++ f :: a'' := by
                  simp [hf]
                exact ha (ha' ▸ hmem)
            exact (List.cons_prefix_cons.mpr ⟨hc.symm ▸ rfl, this⟩).isInfix
          · have hlt : rest.length < n := by simp [← hn]
            exact List.infix_cons (ih rest.length hlt rest rfl hp)
  exact fun s => H s.length s rfl

/-! ## JSON values

Python objects deserialised from JSON: dictionaries are association lists
in insertion order (Python dicts preserve insertion order and JSON suites
have no duplicate keys). -/

inductive JValue where
  | null : JValue
  | bool (b : Bool) : JValue
  | num (n : Int) : JValue
  | str (s : Str) : JValue
  | arr (xs : List JValue) : JValue
  | obj (kvs : List (Str × JValue)) : JValue

/-- `d.get(k)` on a Python dict modelled as an association list. -/
def jLookup (kvs : List (Str × JValue)) (k : Str) : Option JValue :=
  match kvs with
  | [] => none
  | (k', v) :: rest => if k' = k then some v else jLookup rest k

/-- `k in d` on a Python dict. -/
def jHasKey (kvs : List (Str × JValue)) (k : Str) : Bool :=
  match kvs with
  | [] => false
  | (k', _) :: rest => k' = k || jHasKey rest k

/-- Python truthiness of a JSON value: `None`, `False`, `0`, `""`, `[]` and
`{}` are falsy, everything else truthy. -/
def jTruthy : JValue → Bool
  | .null => false
  | .bool b => b
  | .num n => n != 0
  | .str s => !s.isEmpty
  | .arr xs => !xs.isEmpty
  | .obj kvs => !kvs.isEmpty

/-- Python truthiness of an optional string (`None` and `""` are falsy). -/
def strTruthy : Option Str → Bool
  | none => false
  | some s => !s.isEmpty

/-- All string literals of the JSON serialisation `json.dumps(v)`, in
serialisation order: object keys first, then the value under them.  Since
every placeholder token is a `$`-headed run of letters, digits and
underscores, and `json.dumps` emits `$` only inside string literals, an
occurrence of a token in the serialised text is exactly an occurrence
inside one of these literals. -/
def jStrings : JValue → List Str
  | .null | .bool _ | .num _ => []
  | .str s => [s]
  | .arr xs => xs.attach.flatMap fun ⟨x, _⟩ => jStrings x
  | .obj kvs => kvs.attach.flatMap fun ⟨(k, v), _⟩ => k :: jStrings v
termination_by v => sizeOf v
decreasing_by
  · have := List.sizeOf_lt_of_mem (by assumption : x ∈ xs)
    simp only [JValue.arr.sizeOf_spec]
    omega
  · have := List.sizeOf_lt_of_mem (by assumption : (k, v) ∈ kvs)
    have h2 : sizeOf v < sizeOf (k, v) := by simp
    simp only [JValue.obj.sizeOf_spec]
    omega

/-- `"tok" in json.dumps(v)`: the token occurs in some string literal of
the serialisation. -/
def jContains (v : JValue) (t : Str) : Bool :=
  (jStrings v).any fun s => decide (t <:+: s)

/-- The textual substitution `json.loads(json.dumps(v).replace(t, p))`
performed by the source on request bodies, modelled structurally: the
replacement is applied inside every string literal (object keys included).
This is equivalent to the source's serialise-replace-parse round trip for
the `$`-headed placeholder patterns and replacement values free of JSON
metacharacters (quote, backslash, control characters), which is the regime
the framework operates in. -/
def jReplace (v : JValue) (t p : Str) : JValue :=
  match v with
  | .null => .null
  | .bool b => .bool b
  | .num n => .num n
  | .str s => .str (pyReplace s t p)
  | .arr xs => .arr (xs.attach.map fun ⟨x, _⟩ => jReplace x t p)
  | .obj kvs => .obj (kvs.attach.map fun ⟨(k, v'), _⟩ =>
      (pyReplace k t p, jReplace v' t p))
termination_by sizeOf v
decreasing_by
  · have := List.sizeOf_lt_of_mem (by assumption : x ∈ xs)
    simp only [JValue.arr.sizeOf_spec]
    omega
  · have := List.sizeOf_lt_of_mem (by assumption : (k, v') ∈ kvs)
    have h2 : sizeOf v' < sizeOf (k, v') := by simp
    simp only [JValue.obj.sizeOf_spec]
    omega

/-! ## Placeholder token vocabulary (scripts/lib/placeholders.py) -/

def accessTokenPH : Str := "$ACCESS_TOKEN".toList

def refreshTokenPH : Str := "$REFRESH_TOKEN".toList

def ulidPH : Str := "$ULID".toList

def nextCursorPH : Str := "$NEXT_CURSOR".toList

def prevCursorPH : Str := "$PREV_CURSOR".toList

/-! ## Data types (src/scripts/api-test/lib/types.py) -/

/-- `TestDefinition`: one declared API test case.  Headers are an
association list in insertion order (a Python dict); `data` is the
JSON-shaped request body. -/
structure TestDefinition where
  name : Str
  cmd : Str
  endpoint : Str
  headers : Option (List (Str × Str)) := none
  data : Option JValue := none
  details : Option Str := none
  notes : Option Str := none
  expected_status : Option Int := none

/-- `TestSuite` from src/scripts/api-test/lib/types.py.  The source field
`prefix` is spelt `urlPrefix` here. -/
structure TestSuite where
  docURL : Str
  serverURL : Str
  urlPrefix : Str := []
  username : Str := "admin".toList
  password : Str := "moonadmin12#".toList
  health : Str := "/health".toList
  tests : List TestDefinition := []

/-- `TestResponse` from src/scripts/api-test/lib/types.py. -/
structure TestResponse where
  curl_command : Str
  status : Str
  body : Str
  response_obj : Option JValue := none

/-- `AuthState` from src/scripts/api-test/lib/types.py. -/
structure AuthState where
  access_token : Option Str := none
  refresh_token : Option Str := none
  current_username : Option Str := none
  current_password : Option Str := none
  all_access_tokens : List Str := []
  all_refresh_tokens : List Str := []

/-- `AuthState.update_access_token`: set the current token and append it to
the history unless falsy or already present. -/
def AuthState.update_access_token (a : AuthState) (token : Str) : AuthState :=
  { a with
    access_token := some token
    all_access_tokens :=
      if token ≠ [] ∧ token ∉ a.all_access_tokens
      then a.all_access_tokens ++ [token] else a.all_access_tokens }

/-- `AuthState.update_refresh_token`: same discipline for refresh tokens. -/
def AuthState.update_refresh_token (a : AuthState) (token : Str) : AuthState :=
  { a with
    refresh_token := some token
    all_refresh_tokens :=
      if token ≠ [] ∧ token ∉ a.all_refresh_tokens
      then a.all_refresh_tokens ++ [token] else a.all_refresh_tokens }

/-- `AuthState.update_credentials` after a password change. -/
def AuthState.update_credentials (a : AuthState) (username password : Str) : AuthState :=
  { a with current_username := some username, current_password := some password }

/-- Modelled from the spec: `PlaceholderContext`.  The fields
`captured_record_id`, `placeholder_type` and `captured_record_ids` follow
src/scripts/api-test/lib/types.py; the pagination fields `next_cursor`,
`prev_cursor` and `cursors_initialized`, which the complete placeholder
resolver (src/scripts/lib/placeholders.py) reads, have no dataclass
declaration among the source files and are modelled from the spec's data
model (§3): two optional cursor strings plus a flag marking whether
cursors have ever been initialized.  Captured record identifiers are
modelled as strings, the regime of this framework. -/
structure PlaceholderContext where
  captured_record_id : Option Str := none
  placeholder_type : Option Str := none
  captured_record_ids : List Str := []
  next_cursor : Option Str := none
  prev_cursor : Option Str := none
  cursors_initialized : Bool := false

/-- `TestResult` from src/scripts/api-test/lib/types.py. -/
structure TestResult where
  status : Str
  output_file : Option Str
  markdown : Str
  all_tests_passed : Bool

/-! ## Placeholder replacement (src/scripts/lib/placeholders.py) -/

/-- Update one key of a Python dict modelled as an association list. -/
def updateAssoc (hs : List (Str × Str)) (k : Str) (f : Str → Str) : List (Str × Str) :=
  hs.map fun kv => if kv.1 = k then (kv.1, f kv.2) else kv

/-- `replace_auth_placeholders`: `$ACCESS_TOKEN` inside the Authorization
header, `$REFRESH_TOKEN` inside the serialised body. -/
def replace_auth_placeholders (test : TestDefinition) (auth_state : AuthState) :
    TestDefinition :=
  let headers' :=
    match test.headers, auth_state.access_token with
    | some hs, some tok =>
      if tok ≠ [] ∧ hs ≠ [] then
        if hs.any (fun kv => kv.1 = "Authorization".toList) then
          some (updateAssoc hs "Authorization".toList
            (fun v => pyReplace v accessTokenPH tok))
        else some hs
      else some hs
    | h, _ => h
  let data' :=
    match test.data, auth_state.refresh_token with
    | some d, some tok =>
      if tok ≠ [] ∧ jTruthy d then
        if jContains d refreshTokenPH then some (jReplace d refreshTokenPH tok)
        else some d
      else some d
    | d, _ => d
  { test with headers := headers', data := data' }

/-- The matches of the pattern `\$ULID(\d+)` in a text, in scan order:
the captured digit runs (greedy, non-overlapping, left to right), as
`re.findall` produces them.  Digits are ASCII. -/
def findNumberedMatchesF : Nat → Str → List Str
  | 0, _ => []
  | fuel + 1, s =>
    if ulidPH.isPrefixOf s then
      let ds := (s.drop 5).takeWhile Char.isDigit
      if ds.isEmpty then
        match s with
        | [] => []
        | _ :: rest => findNumberedMatchesF fuel rest
      else ds :: findNumberedMatchesF fuel (s.drop (5 + ds.length))
    else
      match s with
      | [] => []
      | _ :: rest => findNumberedMatchesF fuel rest

def findNumberedMatches (s : Str) : List Str :=
  findNumberedMatchesF (s.length + 1) s

/-- `int(...)` on a run of ASCII digits. -/
def digitsToNat (ds : Str) : Nat :=
  ds.foldl (fun acc c => acc * 10 + (c.toNat - '0'.toNat)) 0

/-- `_replace_numbered_placeholders`: replace each matched `$ULID<N>` whose
1-based index is within range by the corresponding record id; out-of-range
matches are skipped.  The match list is computed once on the input text,
replacements are applied to the evolving text. -/
def replace_numbered_placeholders (text : Str) (record_ids : List Str) : Str :=
  (findNumberedMatches text).foldl
    (fun t m =>
      let n := digitsToNat m
      if 1 ≤ n ∧ n ≤ record_ids.length then
        pyReplace t (ulidPH ++ m) (record_ids.getD (n - 1) [])
      else t)
    text

/-- The numbered matches of a serialised body, in serialisation order. -/
def jFindNumberedMatches (v : JValue) : List Str :=
  (jStrings v).flatMap findNumberedMatches

/-- `_replace_numbered_placeholders` applied through the body's
serialise-replace-parse round trip. -/
def jReplaceNumbered (v : JValue) (record_ids : List Str) : JValue :=
  (jFindNumberedMatches v).foldl
    (fun w m =>
      let n := digitsToNat m
      if 1 ≤ n ∧ n ≤ record_ids.length then
        jReplace w (ulidPH ++ m) (record_ids.getD (n - 1) [])
      else w)
    v

/-- One conditional replacement inside the endpoint string, with the flag
telling whether the token occurred. -/
def replaceInEndpoint (ep tok v : Str) : Str × Bool :=
  if tok <:+: ep then (pyReplace ep tok v, true) else (ep, false)

/-- One conditional replacement inside the body (serialise, test membership,
replace, parse back), with the flag telling whether the token occurred. -/
def replaceInData (d : Option JValue) (tok v : Str) : Option JValue × Bool :=
  match d with
  | some dv =>
    if jTruthy dv ∧ jContains dv tok then (some (jReplace dv tok v), true)
    else (some dv, false)
  | none => (none, false)

/-- `replace_record_placeholders`: the four substitution steps
(`$PREV_CURSOR`, `$NEXT_CURSOR` with its record-id fallback, numbered
`$ULID<N>`, bare `$ULID`) in source order, returning the new test and the
`placeholder_used` report. -/
def replace_record_placeholders (test : TestDefinition)
    (context : PlaceholderContext) : TestDefinition × Option Str :=
  -- 1. $PREV_CURSOR
  let s1 : TestDefinition × Option Str :=
    if strTruthy context.prev_cursor then
      let pc := context.prev_cursor.getD []
      let e1 := replaceInEndpoint test.endpoint prevCursorPH pc
      let d1 := replaceInData test.data prevCursorPH pc
      ({ test with endpoint := e1.1, data := d1.1 },
        if e1.2 || d1.2 then some prevCursorPH else none)
    else (test, none)
  -- 2. $NEXT_CURSOR: cursor when initialised, captured record id otherwise
  let ncv : Option Str :=
    if context.cursors_initialized then context.next_cursor
    else context.captured_record_id
  let s2 : TestDefinition × Option Str :=
    if strTruthy ncv then
      let nc := ncv.getD []
      let e1 := replaceInEndpoint s1.1.endpoint nextCursorPH nc
      let d1 := replaceInData s1.1.data nextCursorPH nc
      ({ s1.1 with endpoint := e1.1, data := d1.1 },
        if e1.2 || d1.2 then some nextCursorPH else s1.2)
    else s1
  -- 3. numbered $ULID1, $ULID2, …
  let s3 : TestDefinition × Option Str :=
    if context.captured_record_ids ≠ [] then
      let ep := replace_numbered_placeholders s2.1.endpoint context.captured_record_ids
      let d := match s2.1.data with
        | some dv =>
          if jTruthy dv then some (jReplaceNumbered dv context.captured_record_ids)
          else some dv
        | none => none
      ({ s2.1 with endpoint := ep, data := d },
        match s2.2 with
        | some x => some x
        | none => some ulidPH)
    else s2
  -- 4. bare $ULID
  if strTruthy context.captured_record_id then
    let rid := context.captured_record_id.getD []
    let e1 := replaceInEndpoint s3.1.endpoint ulidPH rid
    let d1 := replaceInData s3.1.data ulidPH rid
    ({ s3.1 with endpoint := e1.1, data := d1.1 },
      if e1.2 || d1.2 then
        match s3.2 with
        | some x => some x
        | none => some ulidPH
      else s3.2)
  else s3

/-! ## Response capture (src/scripts/lib/placeholders.py) -/

/-- The array-key loop of `extract_record_id_from_response`: walk
`["data", "records", "items"]`; at the first key holding a non-empty list
pick the second element when there are at least two, else the first, and
return its `id` when it is a dict carrying one; otherwise keep walking. -/
def scanArrayKeys (kvs : List (Str × JValue)) : List Str → Option JValue
  | [] => none
  | k :: rest =>
    match jLookup kvs k with
    | some (.arr items) =>
      if items.isEmpty then scanArrayKeys kvs rest
      else
        let selected := if items.length > 1 then items.getD 1 .null
          else items.getD 0 .null
        match selected with
        | .obj skvs =>
          match jLookup skvs "id".toList with
          | some x => some x
          | none => scanArrayKeys kvs rest
        | _ => scanArrayKeys kvs rest
    | _ => scanArrayKeys kvs rest

/-- The alternate-key loop of `extract_record_id_from_response`: for each of
`["_id", "ulid", "uuid"]`, a top-level hit wins, then a hit one level under
a `data` dict. -/
def scanAltKeys (kvs : List (Str × JValue)) : List Str → Option JValue
  | [] => none
  | k :: rest =>
    match jLookup kvs k with
    | some x => some x
    | none =>
      match jLookup kvs "data".toList with
      | some (.obj dkvs) =>
        match jLookup dkvs k with
        | some x => some x
        | none => scanAltKeys kvs rest
      | _ => scanAltKeys kvs rest

/-- `extract_record_id_from_response`: top-level `id`, then `data.id`, then
`record.id`, then the array scan, then a truthy `meta.next` cursor, then the
alternate identifier keys. -/
def extract_record_id_from_response (response_obj : Option JValue) : Option JValue :=
  match response_obj with
  | some (.obj kvs) =>
    if kvs.isEmpty then none
    else
      match jLookup kvs "id".toList with
      | some x => some x
      | none =>
        match (match jLookup kvs "data".toList with
               | some (.obj dkvs) => jLookup dkvs "id".toList
               | _ => none) with
        | some x => some x
        | none =>
          match (match jLookup kvs "record".toList with
                 | some (.obj rkvs) => jLookup rkvs "id".toList
                 | _ => none) with
          | some x => some x
          | none =>
            match scanArrayKeys kvs
                ["data".toList, "records".toList, "items".toList] with
            | some x => some x
            | none =>
              match (match jLookup kvs "meta".toList with
                     | some (.obj mkvs) =>
                       match jLookup mkvs "next".toList with
                       | some nx => if jTruthy nx then some nx else none
                       | none => none
                     | _ => none) with
              | some x => some x
              | none =>
                scanAltKeys kvs ["_id".toList, "ulid".toList, "uuid".toList]
  | _ => none

/-! ## Authentication lifecycle (src/scripts/lib/auth.py) -/

/-- Python's `str.upper()` for the method field. -/
def toUpper (s : Str) : Str := s.map Char.toUpper

/-- `"2xx"` test: `response.status.startswith("2")`. -/
def startsWith2 (s : Str) : Bool :=
  match s with
  | '2' :: _ => true
  | _ => false

/-- `detect_password_change`: a POST to an endpoint containing `/auth:me`
whose dict body carries both `old_password` and `password`; returns the new
password.  Password values are strings in this framework. -/
def detect_password_change (test : TestDefinition) : Option Str :=
  if toUpper test.cmd = "POST".toList ∧ "/auth:me".toList <:+: test.endpoint then
    match test.data with
    | some (.obj kvs) =>
      if jHasKey kvs "old_password".toList && jHasKey kvs "password".toList then
        match jLookup kvs "password".toList with
        | some (.str s) => some s
        | _ => none
      else none
    | _ => none
  else none

/-- `detect_token_refresh`: a POST to an endpoint containing `/auth:refresh`. -/
def detect_token_refresh (test : TestDefinition) : Bool :=
  toUpper test.cmd = "POST".toList ∧ "/auth:refresh".toList <:+: test.endpoint

/-- `detect_login`: a POST to an endpoint containing `/auth:login`. -/
def detect_login (test : TestDefinition) : Bool :=
  toUpper test.cmd = "POST".toList ∧ "/auth:login".toList <:+: test.endpoint

/-- String view of an extracted token field (tokens are strings in this
framework). -/
def asStr : Option JValue → Option Str
  | some (.str s) => some s
  | _ => none

/-- `extract_tokens_from_response`: tokens may sit one level under a `data`
wrapper; a falsy response object yields nothing. -/
def extract_tokens_from_response (response_obj : Option JValue) :
    Option Str × Option Str :=
  match response_obj with
  | some (.obj kvs) =>
    if kvs.isEmpty then (none, none)
    else
      let dkvs :=
        match jLookup kvs "data".toList with
        | some (.obj inner) => inner
        | some _ => kvs
        | none => kvs
      (asStr (jLookup dkvs "access_token".toList),
       asStr (jLookup dkvs "refresh_token".toList))
  | _ => (none, none)

/-- `should_relogin_after_test`: a password change was detected (the new
password may be any string, `is not None`) and the request succeeded. -/
def should_relogin_after_test (_test : TestDefinition) (response_status : Str)
    (new_password : Option Str) : Bool :=
  new_password.isSome && startsWith2 response_status

/-! ## Formatting and sanitisation (src/scripts/lib/formatters.py) -/

/-- `format_markdown_result`: the markdown block for one executed test. -/
def format_markdown_result (curl_cmd status body : Str) (test_name : Option Str)
    (details : Option Str) (notes : Option Str) : List Str :=
  (if strTruthy test_name then
    ["### ".toList ++ test_name.getD [] ++ "\n".toList] else []) ++
  (if strTruthy details then [details.getD [] ++ "\n".toList] else []) ++
  (if strTruthy notes then [notes.getD [] ++ "\n".toList] else []) ++
  ["```bash\n".toList ++ curl_cmd ++ "\n```".toList,
   "\n**Response (".toList ++ status ++ "):**\n".toList,
   "```json\n".toList ++ body ++ "\n```\n".toList]

/-- The `for token in auth_state.all_access_tokens` loop of the sanitizer:
each truthy historical token is replaced by the fixed placeholder. -/
def replaceTokenList (tokens : List Str) (ph : Str) (s : Str) : Str :=
  tokens.foldl (fun s' tok => if tok ≠ [] then pyReplace s' tok ph else s') s

/-- `sanitize_curl_for_documentation`: replace the server URL by the display
URL, every historical access/refresh token by its fixed placeholder, and the
captured record id by its originating placeholder token. -/
def sanitize_curl_for_documentation (curl_cmd server_url doc_url : Str)
    (auth_state : AuthState) (record_id : Option Str)
    (placeholder_type : Option Str) : Str :=
  let s1 := pyReplace curl_cmd server_url doc_url
  let s2 := replaceTokenList auth_state.all_access_tokens accessTokenPH s1
  let s3 := replaceTokenList auth_state.all_refresh_tokens refreshTokenPH s2
  if strTruthy record_id ∧ strTruthy placeholder_type then
    pyReplace s3 (record_id.getD []) (placeholder_type.getD [])
  else s3

/-- `"\n".join(markdown_lines)`. -/
def joinLines (ls : List Str) : Str :=
  (ls.intersperse "\n".toList).flatten

/-! ## Orchestrator (src/scripts/api-test/lib/test_runner.py)

HTTP effects are supplied by an oracle: `exec i` is the response of the
`i`-th executed request, `fetch_ids i` the identifier list the side-channel
collection fetch of step `i` would return, and `relogin u pw` the outcome
of `relogin_with_new_password` (a fresh `AuthState`, or `none` on login
failure).  Any concrete run of the Python orchestrator corresponds to one
such oracle. -/

structure Env where
  exec : Nat → TestResponse
  fetch_ids : Nat → List Str
  relogin : Str → Str → Option AuthState

/-- Python truthiness of the optional structured response body. -/
def respTruthy : Option JValue → Bool
  | none => false
  | some v => jTruthy v

/-- `str.split(sep)` for a one-character separator. -/
def splitOnChar (s : Str) (sep : Char) : List Str :=
  match s with
  | [] => [[]]
  | c :: rest =>
    let r := splitOnChar rest sep
    if c = sep then [] :: r
    else
      match r with
      | h :: t => (c :: h) :: t
      | [] => [[c]]

/-- `_copy_test`: the defensive per-iteration copy.  Headers and body are
deep-copied by the source; the model's values are immutable, so copying is
field transfer.  The source omits `expected_status` from the copy. -/
def copy_test (test : TestDefinition) : TestDefinition :=
  { name := test.name, cmd := test.cmd, endpoint := test.endpoint,
    headers := test.headers, data := test.data,
    details := test.details, notes := test.notes, expected_status := none }

/-- `_test_needs_numbered_placeholders`: the regex `\$ULID\d+` matches the
endpoint or the serialised body. -/
def test_needs_numbered_placeholders (test : TestDefinition) : Bool :=
  !(findNumberedMatches test.endpoint).isEmpty ||
    (match test.data with
     | some d => jTruthy d && !(jFindNumberedMatches d).isEmpty
     | none => false)

/-- `_extract_collection_name_from_test`: strip the query string, split the
path on `/`, return what precedes `:` in the first part containing one. -/
def extract_collection_name_from_test (test : TestDefinition) : Option Str :=
  if test.endpoint = [] then none
  else
    let ep := (splitOnChar test.endpoint '?').headD []
    let parts := splitOnChar ep '/'
    parts.findSome? fun part =>
      if ':' ∈ part then some ((splitOnChar part ':').headD []) else none

/-- The per-iteration request preparation (orchestrator steps 1–3): copy,
auth substitution, then either the numbered-placeholder side-channel branch
with a temporary context, or the standing-context record substitution.
Returns the prepared test and the possibly updated standing context. -/
def prepare_test (env : Env) (i : Nat) (test : TestDefinition)
    (auth : AuthState) (ctx : PlaceholderContext) :
    TestDefinition × PlaceholderContext :=
  let test_copy := replace_auth_placeholders (copy_test test) auth
  if test_needs_numbered_placeholders test_copy then
    match extract_collection_name_from_test test_copy with
    | some cn =>
      if cn ≠ [] then
        let fresh := env.fetch_ids i
        if fresh ≠ [] then
          let temp : PlaceholderContext := { captured_record_ids := fresh }
          ((replace_record_placeholders test_copy temp).1, ctx)
        else (test_copy, ctx)
      else (test_copy, ctx)
    | none => (test_copy, ctx)
  else if strTruthy ctx.captured_record_id then
    let r := replace_record_placeholders test_copy ctx
    match r.2 with
    | some p =>
      if p ≠ [] then (r.1, { ctx with placeholder_type := some p }) else (r.1, ctx)
    | none => (r.1, ctx)
  else (test_copy, ctx)

/-- The mutable state the loop threads: auth, placeholder context, the
markdown accumulator, the verdict flag, and (for specification purposes)
the trace of re-login calls issued after password changes. -/
structure RunState where
  auth : AuthState
  ctx : PlaceholderContext
  markdown_lines : List Str
  all_tests_passed : Bool
  relogin_calls : List (Str × Str)

/-- One iteration of `run_test_suite`'s loop for the `i`-th test. -/
def step_test (env : Env) (suite : TestSuite) (i : Nat) (test : TestDefinition)
    (st : RunState) : RunState :=
  let pr := prepare_test env i test st.auth st.ctx
  let test_copy := pr.1
  let ctx1 := pr.2
  let new_password := detect_password_change test_copy
  let response := env.exec i
  let is_successful := startsWith2 response.status
  -- login / token-refresh: push response tokens into AuthState
  let auth1 :=
    if is_successful && respTruthy response.response_obj then
      if detect_login test_copy || detect_token_refresh test_copy then
        let tokens := extract_tokens_from_response response.response_obj
        let a := match tokens.1 with
          | some tk => if tk ≠ [] then st.auth.update_access_token tk else st.auth
          | none => st.auth
        match tokens.2 with
        | some tk => if tk ≠ [] then a.update_refresh_token tk else a
        | none => a
      else st.auth
    else st.auth
  -- password change: re-login with the new password
  let reStep : AuthState × List (Str × Str) :=
    if should_relogin_after_test test_copy response.status new_password then
      match new_password, auth1.current_username with
      | some npw, some u =>
        if npw ≠ [] ∧ u ≠ [] then
          match env.relogin u npw with
          | some new_auth =>
            let a := auth1.update_credentials u npw
            let a := match new_auth.access_token with
              | some tk => if tk ≠ [] then a.update_access_token tk else a
              | none => a
            let a := match new_auth.refresh_token with
              | some tk => if tk ≠ [] then a.update_refresh_token tk else a
              | none => a
            (a, st.relogin_calls ++ [(u, npw)])
          | none => (auth1, st.relogin_calls ++ [(u, npw)])
        else (auth1, st.relogin_calls)
      | _, _ => (auth1, st.relogin_calls)
    else (auth1, st.relogin_calls)
  -- capture a single record id from a successful create/list response
  let ctx2 :=
    if is_successful && respTruthy response.response_obj then
      if ":create".toList <:+: test_copy.endpoint ∨
          ":list".toList <:+: test_copy.endpoint then
        if !strTruthy ctx1.captured_record_id then
          match extract_record_id_from_response response.response_obj with
          | some rv =>
            if jTruthy rv then
              match rv with
              | .str s =>
                { ctx1 with captured_record_id := some s,
                            placeholder_type := some ulidPH }
              | _ => ctx1
            else ctx1
          | none => ctx1
        else ctx1
      else ctx1
    else ctx1
  let sanitized := sanitize_curl_for_documentation response.curl_command
    suite.serverURL suite.docURL reStep.1 ctx2.captured_record_id
    ctx2.placeholder_type
  let lines :=
    if test.name ≠ [] then
      st.markdown_lines ++ format_markdown_result sanitized response.status
        response.body (some test.name) test.details test.notes
    else st.markdown_lines
  let passed :=
    if test.name ≠ [] ∧ ¬ is_successful then false else st.all_tests_passed
  { auth := reStep.1, ctx := ctx2, markdown_lines := lines,
    all_tests_passed := passed, relogin_calls := reStep.2 }

/-- The loop of `run_test_suite`, iterating in order over all tests with no
early exit. -/
def run_tests (env : Env) (suite : TestSuite) :
    Nat → List TestDefinition → RunState → RunState
  | _, [], st => st
  | i, t :: rest, st => run_tests env suite (i + 1) rest (step_test env suite i t st)

/-- `run_test_suite`: iterate, then assemble the `TestResult`. -/
def run_test_suite (env : Env) (test_suite : TestSuite)
    (auth_state : Option AuthState) (output_file : Option Str) : TestResult :=
  let auth0 := auth_state.getD {}
  let st0 : RunState :=
    { auth := auth0, ctx := {}, markdown_lines := [],
      all_tests_passed := true, relogin_calls := [] }
  let fin := run_tests env test_suite 0 test_suite.tests st0
  { status := if fin.all_tests_passed then "success".toList else "failure".toList,
    output_file := output_file,
    markdown := joinLines fin.markdown_lines,
    all_tests_passed := fin.all_tests_passed }

/-! ## Claim theorems -/

/-- A call to one of `AuthState`'s two token-update methods. -/
inductive TokenEvent where
  | access (t : Str)
  | refresh (t : Str)

/-- Apply one token-update call. -/
def applyTokenEvent (a : AuthState) : TokenEvent → AuthState
  | .access t => a.update_access_token t
  | .refresh t => a.update_refresh_token t

/-- Apply a sequence of token-update calls in order. -/
def applyTokenEvents (a : AuthState) (evs : List TokenEvent) : AuthState :=
  evs.foldl applyTokenEvent a

theorem update_access_grows (a : AuthState) (t : Str) :
    a.all_access_tokens <+: (a.update_access_token t).all_access_tokens := by
  unfold AuthState.update_access_token
  dsimp only
  split
  · exact List.prefix_append _ _
  · exact List.prefix_refl _

theorem update_refresh_grows (a : AuthState) (t : Str) :
    a.all_refresh_tokens <+: (a.update_refresh_token t).all_refresh_tokens := by
  unfold AuthState.update_refresh_token
  dsimp only
  split
  · exact List.prefix_append _ _
  · exact List.prefix_refl _

theorem update_access_nodup (a : AuthState) (t : Str)
    (h : a.all_access_tokens.Nodup) :
    (a.update_access_token t).all_access_tokens.Nodup := by
  unfold AuthState.update_access_token
  dsimp only
  split
  · next hc => simpa [List.nodup_append] using ⟨h, hc.2⟩
  · exact h

theorem update_refresh_nodup (a : AuthState) (t : Str)
    (h : a.all_refresh_tokens.Nodup) :
    (a.update_refresh_token t).all_refresh_tokens.Nodup := by
  unfold AuthState.update_refresh_token
  dsimp only
  split
  · next hc => simpa [List.nodup_append] using ⟨h, hc.2⟩
  · exact h

theorem update_access_refresh_frame (a : AuthState) (t : Str) :
    (a.update_access_token t).all_refresh_tokens = a.all_refresh_tokens := rfl

theorem update_refresh_access_frame (a : AuthState) (t : Str) :
    (a.update_refresh_token t).all_access_tokens = a.all_access_tokens := rfl

/-- C7.  AuthState's historical token lists are monotone and duplicate-free:
along any sequence of `update_access_token` / `update_refresh_token` calls,
each history only grows by appending at the tail (the old list stays a
prefix of the new one), and both histories stay duplicate-free whenever they
start duplicate-free — as they do in a fresh `AuthState`, whose histories
are empty. -/
theorem authState_token_history_monotone_nodup (a : AuthState)
    (evs : List TokenEvent)
    (hA : a.all_access_tokens.Nodup) (hR : a.all_refresh_tokens.Nodup) :
    (a.all_access_tokens <+: (applyTokenEvents a evs).all_access_tokens ∧
      a.all_refresh_tokens <+: (applyTokenEvents a evs).all_refresh_tokens) ∧
    ((applyTokenEvents a evs).all_access_tokens.Nodup ∧
      (applyTokenEvents a evs).all_refresh_tokens.Nodup) := by
  induction evs generalizing a with
  | nil => exact ⟨⟨List.prefix_refl _, List.prefix_refl _⟩, hA, hR⟩
  | cons ev rest ih =>
    have step :
        a.all_access_tokens <+: (applyTokenEvent a ev).all_access_tokens ∧
        a.all_refresh_tokens <+: (applyTokenEvent a ev).all_refresh_tokens ∧
        (applyTokenEvent a ev).all_access_tokens.Nodup ∧
        (applyTokenEvent a ev).all_refresh_tokens.Nodup := by
      cases ev with
      | access t =>
        exact ⟨update_access_grows a t,
          (update_access_refresh_frame a t).symm ▸ List.prefix_refl _,
          update_access_nodup a t hA,
          (update_access_refresh_frame a t).symm ▸ hR⟩
      | refresh t =>
        exact ⟨(update_refresh_access_frame a t).symm ▸ List.prefix_refl _,
          update_refresh_grows a t,
          (update_refresh_access_frame a t).symm ▸ hA,
          update_refresh_nodup a t hR⟩
    have hrec := ih (applyTokenEvent a ev) step.2.2.1 step.2.2.2
    refine ⟨⟨step.1.trans ?_, step.2.1.trans ?_⟩, hrec.2⟩
    · exact hrec.1.1
    · exact hrec.1.2

/-- C7 witness: a concrete event sequence with a repeated token, replayed
from a fresh `AuthState`: the history grows append-only and holds the token
once. -/
theorem authState_token_history_witness :
    (({} : AuthState).all_access_tokens.Nodup ∧
      ({} : AuthState).all_refresh_tokens.Nodup) ∧
    (({} : AuthState).all_access_tokens <+:
        (applyTokenEvents {} [.access "T1".toList, .refresh "R1".toList,
          .access "T1".toList, .access "T2".toList]).all_access_tokens ∧
      (applyTokenEvents {} [.access "T1".toList, .refresh "R1".toList,
          .access "T1".toList, .access "T2".toList]).all_access_tokens.Nodup) ∧
    (applyTokenEvents {} [.access "T1".toList, .refresh "R1".toList,
        .access "T1".toList, .access "T2".toList]).all_access_tokens
      = ["T1".toList, "T2".toList] := by
  refine ⟨⟨by decide, by decide⟩, ⟨?_, ?_⟩, by decide⟩
  · exact (authState_token_history_monotone_nodup {} _ (by decide) (by decide)).1.1
  · exact (authState_token_history_monotone_nodup {} _ (by decide) (by decide)).2.1

theorem step_test_passed (env : Env) (suite : TestSuite) (i : Nat)
    (t : TestDefinition) (st : RunState) :
    (step_test env suite i t st).all_tests_passed =
      if t.name ≠ [] ∧ ¬ (startsWith2 (env.exec i).status = true) then false
      else st.all_tests_passed := rfl

theorem run_tests_passed (env : Env) (suite : TestSuite) :
    ∀ (ts : List TestDefinition) (i : Nat) (st : RunState),
      (run_tests env suite i ts st).all_tests_passed = true ↔
        (st.all_tests_passed = true ∧
          ∀ j (h : j < ts.length), (ts.get ⟨j, h⟩).name ≠ [] →
            startsWith2 (env.exec (i + j)).status = true) := by
  intro ts
  induction ts with
  | nil =>
    intro i st
    constructor
    · intro h
      exact ⟨h, fun j hj => absurd hj (by simp)⟩
    · intro h
      exact h.1
  | cons t rest ih =>
    intro i st
    show (run_tests env suite (i + 1) rest (step_test env suite i t st)).all_tests_passed
      = true ↔ _
    rw [ih]
    rw [step_test_passed]
    constructor
    · rintro ⟨hstep, hrest⟩
      by_cases hc : t.name ≠ [] ∧ ¬ (startsWith2 (env.exec i).status = true)
      · rw [if_pos hc] at hstep
        exact absurd hstep (by simp)
      · rw [if_neg hc] at hstep
        refine ⟨hstep, ?_⟩
        intro j hj hname
        match j with
        | 0 =>
          rcases not_and_or.mp hc with h0 | h0
          · exact absurd hname (by simpa using h0)
          · simpa using not_not.mp h0
        | j + 1 =>
          have := hrest j (by simpa using hj) (by simpa using hname)
          have harith : i + 1 + j = i + (j + 1) := by omega
          rwa [harith] at this
    · rintro ⟨hst, hall⟩
      constructor
      · have h0 : t.name ≠ [] → startsWith2 (env.exec i).status = true := by
          intro hname
          simpa using hall 0 (by simp) (by simpa using hname)
        by_cases hc : t.name ≠ [] ∧ ¬ (startsWith2 (env.exec i).status = true)
        · exact absurd (h0 hc.1) hc.2
        · rwa [if_neg hc]
      · intro j hj hname
        have := hall (j + 1) (by simpa using hj) (by simpa using hname)
        have harith : i + (j + 1) = i + 1 + j := by omega
        rwa [harith] at this

/-- Unfolding of `run_test_suite` to its verdict flag. -/
theorem run_test_suite_status (env : Env) (suite : TestSuite)
    (auth : Option AuthState) (out : Option Str) :
    (run_test_suite env suite auth out).status =
      if (run_tests env suite 0 suite.tests
          { auth := auth.getD {}, ctx := {}, markdown_lines := [],
            all_tests_passed := true, relogin_calls := [] }).all_tests_passed
      then "success".toList else "failure".toList := rfl

/-- C1.  The run-level verdict is determined only by tests that carry a
name: the suite result is `"success"` exactly when every named test's
response is 2xx — failures of unnamed tests never enter the verdict, and a
failing named test forces `"failure"`. -/
theorem run_verdict_named_only (env : Env) (suite : TestSuite)
    (auth : Option AuthState) (out : Option Str) :
    ((run_test_suite env suite auth out).status = "success".toList ↔
      ∀ j (h : j < suite.tests.length), (suite.tests.get ⟨j, h⟩).name ≠ [] →
        startsWith2 (env.exec j).status = true) ∧
    ((run_test_suite env suite auth out).status = "success".toList ∨
      (run_test_suite env suite auth out).status = "failure".toList) := by
  have hrun := run_tests_passed env suite suite.tests 0
    { auth := auth.getD {}, ctx := {}, markdown_lines := [],
      all_tests_passed := true, relogin_calls := [] }
  rw [run_test_suite_status]
  by_cases hfin : (run_tests env suite 0 suite.tests
      { auth := auth.getD {}, ctx := {}, markdown_lines := [],
        all_tests_passed := true, relogin_calls := [] }).all_tests_passed = true
  · rw [if_pos hfin]
    refine ⟨?_, Or.inl rfl⟩
    simp only [true_iff]
    intro j hj hname
    have := (hrun.mp hfin).2 j hj hname
    simpa using this
  · rw [if_neg (by simpa using hfin)]
    refine ⟨?_, Or.inr rfl⟩
    constructor
    · intro h
      exact absurd h (by decide)
    · intro hall
      exact absurd (hrun.mpr ⟨rfl, fun j hj hname => by simpa using hall j hj hname⟩) hfin

/-- C10.  In the orchestrator loop, when the (auth-substituted) test shows
no numbered `$ULID<N>` placeholder and no single record id has been
captured yet, the record/cursor substitution step is skipped entirely: the
prepared request is exactly the auth-substituted copy, the standing context
is untouched, the endpoint is byte-for-byte the original (auth substitution
never rewrites the endpoint), and so every `$ULID`, `$NEXT_CURSOR` or
`$PREV_CURSOR` token of the endpoint goes out as literal text even when
cursor values are present in the context. -/
theorem no_capture_skips_record_substitution (env : Env) (i : Nat)
    (t : TestDefinition) (auth : AuthState) (ctx : PlaceholderContext)
    (h1 : test_needs_numbered_placeholders
      (replace_auth_placeholders (copy_test t) auth) = false)
    (h2 : strTruthy ctx.captured_record_id = false) :
    prepare_test env i t auth ctx =
      (replace_auth_placeholders (copy_test t) auth, ctx) ∧
    (prepare_test env i t auth ctx).1.endpoint = t.endpoint ∧
    ∀ tok : Str, tok <:+: t.endpoint →
      tok <:+: (prepare_test env i t auth ctx).1.endpoint := by
  have hep : (replace_auth_placeholders (copy_test t) auth).endpoint = t.endpoint := rfl
  have hmain : prepare_test env i t auth ctx =
      (replace_auth_placeholders (copy_test t) auth, ctx) := by
    unfold prepare_test
    simp [h1, h2]
  refine ⟨hmain, ?_, ?_⟩
  · rw [hmain, hep]
  · intro tok htok
    rw [hmain]
    exact hep.symm ▸ htok

/-- An inert oracle, for concrete instantiations. -/
def envNil : Env := ⟨fun _ => ⟨[], [], [], none⟩, fun _ => [], fun _ _ => none⟩

/-- A list request whose endpoint carries a literal `$NEXT_CURSOR` token. -/
def cursorProbeTest : TestDefinition :=
  { name := "List".toList, cmd := "GET".toList,
    endpoint := "/users:list?cursor=$NEXT_CURSOR".toList }

/-- A context with initialized cursors but no captured record id. -/
def cursorsOnlyCtx : PlaceholderContext :=
  { next_cursor := some "CUR".toList, prev_cursor := some "P".toList,
    cursors_initialized := true }

/-- C10 witness: a list request carrying `$NEXT_CURSOR`, a context holding
initialized cursors but no captured record id: the token is sent literally
and only auth substitution applies. -/
theorem no_capture_skips_record_substitution_witness :
    (test_needs_numbered_placeholders
        (replace_auth_placeholders (copy_test cursorProbeTest) {}) = false ∧
      strTruthy cursorsOnlyCtx.captured_record_id = false) ∧
    (prepare_test envNil 0 cursorProbeTest {} cursorsOnlyCtx).1.endpoint
      = "/users:list?cursor=$NEXT_CURSOR".toList := by
  refine ⟨⟨by decide, by decide⟩, ?_⟩
  have := no_capture_skips_record_substitution envNil 0 cursorProbeTest {}
    cursorsOnlyCtx (by decide) (by decide)
  exact this.2.1

/-! ## Sanitizer freeness lemmas (shared by C2 and C5) -/

theorem replaceTokenList_preserves {t ph : Str} (ht : t ≠ []) (hph : ph ≠ [])
    (hd : ∀ c ∈ t, c ∉ ph) :
    ∀ (l : List Str) (s : Str), ¬ t <:+: s →
      ¬ t <:+: replaceTokenList l ph s := by
  intro l
  induction l with
  | nil => intro s h; simpa [replaceTokenList] using h
  | cons t' l' ih =>
    intro s h
    show ¬ t <:+: replaceTokenList l' ph (if t' ≠ [] then pyReplace s t' ph else s)
    by_cases h' : t' ≠ []
    · rw [if_pos h']
      exact ih _ (not_infix_pyReplace_other ht h' hph hd s h)
    · rw [if_neg h']
      exact ih _ h

theorem replaceTokenList_removes {tok ph : Str} (hph : ph ≠ [])
    (htok : tok ≠ []) (hd : ∀ c ∈ tok, c ∉ ph) :
    ∀ (l : List Str) (s : Str), tok ∈ l →
      ¬ tok <:+: replaceTokenList l ph s := by
  intro l
  induction l with
  | nil => intro s h; simp at h
  | cons t' l' ih =>
    intro s hmem
    show ¬ tok <:+: replaceTokenList l' ph (if t' ≠ [] then pyReplace s t' ph else s)
    rcases List.mem_cons.mp hmem with rfl | hmem'
    · rw [if_pos htok]
      by_cases hm : tok ∈ l'
      · exact ih _ hm
      · exact replaceTokenList_preserves htok hph hd l' _
          (not_infix_pyReplace_self htok hph hd s)
    · by_cases h' : t' ≠ []
      · rw [if_pos h']
        exact ih _ hmem'
      · rw [if_neg h']
        exact ih _ hmem'

theorem replaceTokenList_id {ph : Str} :
    ∀ (l : List Str) (s : Str), (∀ tok ∈ l, ¬ tok <:+: s) →
      replaceTokenList l ph s = s := by
  intro l
  induction l with
  | nil => intro s _; rfl
  | cons t' l' ih =>
    intro s h
    show replaceTokenList l' ph (if t' ≠ [] then pyReplace s t' ph else s) = s
    by_cases h' : t' ≠ []
    · rw [if_pos h', pyReplace_id h' s (h t' (List.mem_cons_self t' l'))]
      exact ih s fun tok hm => h tok (List.mem_cons_of_mem _ hm)
    · rw [if_neg h']
      exact ih s fun tok hm => h tok (List.mem_cons_of_mem _ hm)

/-- Unfolding the sanitizer into its four stages. -/
theorem sanitize_eq (curl_cmd server_url doc_url : Str) (auth_state : AuthState)
    (record_id placeholder_type : Option Str) :
    sanitize_curl_for_documentation curl_cmd server_url doc_url auth_state
        record_id placeholder_type =
      (if strTruthy record_id ∧ strTruthy placeholder_type then
        pyReplace
          (replaceTokenList auth_state.all_refresh_tokens refreshTokenPH
            (replaceTokenList auth_state.all_access_tokens accessTokenPH
              (pyReplace curl_cmd server_url doc_url)))
          (record_id.getD []) (placeholder_type.getD [])
      else
        replaceTokenList auth_state.all_refresh_tokens refreshTokenPH
          (replaceTokenList auth_state.all_access_tokens accessTokenPH
            (pyReplace curl_cmd server_url doc_url))) := rfl

/-- A pattern that is absent after a given sanitizer stage and whose
characters avoid every later replacement string stays absent in the final
sanitizer output: last stage version. -/
theorem sanitize_last_stage_preserves {t : Str} (ht : t ≠ [])
    (record_id placeholder_type : Option Str)
    (hpt : ∀ c ∈ t, c ∉ placeholder_type.getD []) (s : Str) (hs : ¬ t <:+: s) :
    ¬ t <:+:
      (if strTruthy record_id ∧ strTruthy placeholder_type then
        pyReplace s (record_id.getD []) (placeholder_type.getD [])
      else s) := by
  by_cases hc : strTruthy record_id ∧ strTruthy placeholder_type
  · rw [if_pos hc]
    have hr : record_id.getD [] ≠ [] := by
      match record_id, hc.1 with
      | some r, h1 => simpa [strTruthy, List.isEmpty_iff] using h1
    have hp : placeholder_type.getD [] ≠ [] := by
      match placeholder_type, hc.2 with
      | some p, h2 => simpa [strTruthy, List.isEmpty_iff] using h2
    exact not_infix_pyReplace_other ht hr hp hpt s hs
  · rw [if_neg hc]
    exact hs

/-- No historical access token survives the sanitizer, provided every
access token is non-empty and its characters avoid the two placeholder
strings and the record-id placeholder. -/
theorem sanitize_no_access_token (curl_cmd server_url doc_url : Str)
    (auth_state : AuthState) (record_id placeholder_type : Option Str)
    (tok : Str) (hmem : tok ∈ auth_state.all_access_tokens) (htok : tok ≠ [])
    (hd : ∀ c ∈ tok, c ∉ accessTokenPH ∧ c ∉ refreshTokenPH ∧
      c ∉ placeholder_type.getD []) :
    ¬ tok <:+: sanitize_curl_for_documentation curl_cmd server_url doc_url
        auth_state record_id placeholder_type := by
  rw [sanitize_eq]
  refine sanitize_last_stage_preserves htok record_id placeholder_type
    (fun c hc => (hd c hc).2.2) _ ?_
  refine replaceTokenList_preserves htok (by decide)
    (fun c hc => (hd c hc).2.1) _ _ ?_
  exact replaceTokenList_removes (by decide) htok
    (fun c hc => (hd c hc).1) _ _ hmem

/-- No historical refresh token survives the sanitizer, provided every
refresh token is non-empty and its characters avoid the refresh placeholder
string and the record-id placeholder. -/
theorem sanitize_no_refresh_token (curl_cmd server_url doc_url : Str)
    (auth_state : AuthState) (record_id placeholder_type : Option Str)
    (tok : Str) (hmem : tok ∈ auth_state.all_refresh_tokens) (htok : tok ≠ [])
    (hd : ∀ c ∈ tok, c ∉ refreshTokenPH ∧ c ∉ placeholder_type.getD []) :
    ¬ tok <:+: sanitize_curl_for_documentation curl_cmd server_url doc_url
        auth_state record_id placeholder_type := by
  rw [sanitize_eq]
  refine sanitize_last_stage_preserves htok record_id placeholder_type
    (fun c hc => (hd c hc).2) _ ?_
  exact replaceTokenList_removes (by decide) htok
    (fun c hc => (hd c hc).1) _ _ hmem

/-- The real server URL does not survive the sanitizer, provided it is
non-empty and its characters avoid the display URL, the two placeholder
strings and the record-id placeholder (the display URL being non-empty). -/
theorem sanitize_no_server_url (curl_cmd server_url doc_url : Str)
    (auth_state : AuthState) (record_id placeholder_type : Option Str)
    (hsrv : server_url ≠ []) (hdoc : doc_url ≠ [])
    (hd : ∀ c ∈ server_url, c ∉ doc_url ∧ c ∉ accessTokenPH ∧
      c ∉ refreshTokenPH ∧ c ∉ placeholder_type.getD []) :
    ¬ server_url <:+: sanitize_curl_for_documentation curl_cmd server_url
        doc_url auth_state record_id placeholder_type := by
  rw [sanitize_eq]
  refine sanitize_last_stage_preserves hsrv record_id placeholder_type
    (fun c hc => (hd c hc).2.2.2) _ ?_
  refine replaceTokenList_preserves hsrv (by decide)
    (fun c hc => (hd c hc).2.2.1) _ _ ?_
  refine replaceTokenList_preserves hsrv (by decide)
    (fun c hc => (hd c hc).2.1) _ _ ?_
  exact not_infix_pyReplace_self hsrv hdoc (fun c hc => (hd c hc).1) curl_cmd

/-- The captured record id itself does not survive the sanitizer when its
replacement step runs with a placeholder sharing no character with it. -/
theorem sanitize_no_record_id (curl_cmd server_url doc_url : Str)
    (auth_state : AuthState) {record_id placeholder_type : Option Str}
    {r p : Str} (hr : record_id = some r) (hp : placeholder_type = some p)
    (hrne : r ≠ []) (hpne : p ≠ []) (hd : ∀ c ∈ r, c ∉ p) :
    ¬ r <:+: sanitize_curl_for_documentation curl_cmd server_url doc_url
        auth_state record_id placeholder_type := by
  rw [sanitize_eq]
  subst hr
  subst hp
  rw [if_pos ⟨by simpa [strTruthy, List.isEmpty_iff] using hrne,
    by simpa [strTruthy, List.isEmpty_iff] using hpne⟩]
  exact not_infix_pyReplace_self hrne hpne hd _

/-- C5 counterexample.  The transcript sanitizer is not idempotent: with
command `"S"`, server URL `"S"` and display URL `"SS"`, one pass yields
`"SS"` and a second pass on that output yields `"SSSS"`. -/
theorem sanitize_not_idempotent :
    sanitize_curl_for_documentation
        (sanitize_curl_for_documentation "S".toList "S".toList "SS".toList
          {} none none)
        "S".toList "SS".toList {} none none
      ≠ sanitize_curl_for_documentation "S".toList "S".toList "SS".toList
          {} none none := by decide

/-- C5 (amended).  The transcript sanitizer is idempotent on every input
whose replaced values cannot be re-created by later replacement passes:
whenever the server URL is non-empty and shares no character with the
display URL, the fixed placeholder strings or the record-id placeholder,
every historical token is non-empty and shares no character with the
placeholder strings or the record-id placeholder, and the captured record
id shares no character with its placeholder, a second sanitizer pass on the
first pass's output returns it unchanged. -/
theorem sanitize_idempotent_amended (curl_cmd server_url doc_url : Str)
    (auth_state : AuthState) (record_id placeholder_type : Option Str)
    (hsrv : server_url ≠ []) (hdoc : doc_url ≠ [])
    (hsd : ∀ c ∈ server_url, c ∉ doc_url ∧ c ∉ accessTokenPH ∧
      c ∉ refreshTokenPH ∧ c ∉ placeholder_type.getD [])
    (hacc : ∀ tok ∈ auth_state.all_access_tokens, tok ≠ [] ∧
      ∀ c ∈ tok, c ∉ accessTokenPH ∧ c ∉ refreshTokenPH ∧
        c ∉ placeholder_type.getD [])
    (href : ∀ tok ∈ auth_state.all_refresh_tokens, tok ≠ [] ∧
      ∀ c ∈ tok, c ∉ refreshTokenPH ∧ c ∉ placeholder_type.getD [])
    (hrid : ∀ r p, record_id = some r → placeholder_type = some p →
      ∀ c ∈ r, c ∉ p) :
    sanitize_curl_for_documentation
        (sanitize_curl_for_documentation curl_cmd server_url doc_url
          auth_state record_id placeholder_type)
        server_url doc_url auth_state record_id placeholder_type
      = sanitize_curl_for_documentation curl_cmd server_url doc_url
          auth_state record_id placeholder_type := by
  set y := sanitize_curl_for_documentation curl_cmd server_url doc_url
    auth_state record_id placeholder_type with hy
  have hfree_srv : ¬ server_url <:+: y :=
    sanitize_no_server_url curl_cmd server_url doc_url auth_state record_id
      placeholder_type hsrv hdoc hsd
  have hstep1 : pyReplace y server_url doc_url = y :=
    pyReplace_id hsrv y hfree_srv
  have hstep2 : replaceTokenList auth_state.all_access_tokens accessTokenPH y = y := by
    refine replaceTokenList_id _ y fun tok hm => ?_
    exact sanitize_no_access_token curl_cmd server_url doc_url auth_state
      record_id placeholder_type tok hm (hacc tok hm).1 (hacc tok hm).2
  have hstep3 : replaceTokenList auth_state.all_refresh_tokens refreshTokenPH y = y := by
    refine replaceTokenList_id _ y fun tok hm => ?_
    exact sanitize_no_refresh_token curl_cmd server_url doc_url auth_state
      record_id placeholder_type tok hm (href tok hm).1 (href tok hm).2
  rw [sanitize_eq, hstep1, hstep2, hstep3]
  by_cases hc : strTruthy record_id ∧ strTruthy placeholder_type
  · rw [if_pos hc]
    obtain ⟨r, hr⟩ : ∃ r, record_id = some r := by
      match record_id, hc.1 with
      | some r, _ => exact ⟨r, rfl⟩
    obtain ⟨p, hp⟩ : ∃ p, placeholder_type = some p := by
      match placeholder_type, hc.2 with
      | some p, _ => exact ⟨p, rfl⟩
    have hrne : r ≠ [] := by
      have := hc.1
      rw [hr] at this
      simpa [strTruthy, List.isEmpty_iff] using this
    have hpne : p ≠ [] := by
      have := hc.2
      rw [hp] at this
      simpa [strTruthy, List.isEmpty_iff] using this
    have hfree_r : ¬ r <:+: y :=
      sanitize_no_record_id curl_cmd server_url doc_url auth_state hr hp
        hrne hpne (hrid r p hr hp)
    rw [hr, hp]
    simpa using pyReplace_id hrne y hfree_r
  · rw [if_neg hc]

/-- A sanitizer input exercising every stage, over alphabets disjoint from
the placeholder strings. -/
def sanitizeAuthW : AuthState :=
  { all_access_tokens := ["zz".toList], all_refresh_tokens := ["yy".toList] }

/-- C5 witness: a concrete sanitizer call satisfying the disjointness side
conditions; a second pass is the identity on the first pass's output. -/
theorem sanitize_idempotent_amended_witness :
    ("q".toList ≠ ([] : Str) ∧ "w".toList ≠ ([] : Str) ∧
      (∀ c ∈ "q".toList, c ∉ "w".toList ∧ c ∉ accessTokenPH ∧
        c ∉ refreshTokenPH ∧ c ∉ (some ulidPH).getD []) ∧
      (∀ tok ∈ sanitizeAuthW.all_access_tokens, tok ≠ [] ∧
        ∀ c ∈ tok, c ∉ accessTokenPH ∧ c ∉ refreshTokenPH ∧
          c ∉ (some ulidPH).getD []) ∧
      (∀ tok ∈ sanitizeAuthW.all_refresh_tokens, tok ≠ [] ∧
        ∀ c ∈ tok, c ∉ refreshTokenPH ∧ c ∉ (some ulidPH).getD [])) ∧
    sanitize_curl_for_documentation
        (sanitize_curl_for_documentation "curl q zz yy xx".toList "q".toList
          "w".toList sanitizeAuthW (some "xx".toList) (some ulidPH))
        "q".toList "w".toList sanitizeAuthW (some "xx".toList) (some ulidPH)
      = sanitize_curl_for_documentation "curl q zz yy xx".toList "q".toList
          "w".toList sanitizeAuthW (some "xx".toList) (some ulidPH) := by
  refine ⟨⟨by decide, by decide, by decide, by decide, by decide⟩, ?_⟩
  exact sanitize_idempotent_amended "curl q zz yy xx".toList "q".toList
    "w".toList sanitizeAuthW (some "xx".toList) (some ulidPH)
    (by decide) (by decide) (by decide) (by decide) (by decide)
    (by rintro r p ⟨rfl⟩ ⟨rfl⟩; decide)

/-- A named login test. -/
def loginTestW : TestDefinition :=
  { name := "Login".toList, cmd := "POST".toList, endpoint := "/auth:login".toList }

/-- A suite holding only the login test. -/
def loginSuiteW : TestSuite :=
  { docURL := "D".toList, serverURL := "S".toList, tests := [loginTestW] }

/-- A 200 login response whose body text shows the issued access token. -/
def loginRespW : TestResponse :=
  { curl_command := "curl -s -X POST \"S/auth:login\"".toList,
    status := "200 OK".toList,
    body := "\x7b\"data\": \x7b\"access_token\": \"T1\"\x7d\x7d".toList,
    response_obj := some (.obj [("data".toList,
      .obj [("access_token".toList, .str "T1".toList)])]) }

/-- An oracle always answering with the login response. -/
def loginEnvW : Env := ⟨fun _ => loginRespW, fun _ => [], fun _ _ => none⟩

/-- The initial loop state of a run started without an auth state. -/
def initRunState : RunState :=
  { auth := {}, ctx := {}, markdown_lines := [], all_tests_passed := true,
    relogin_calls := [] }

set_option maxRecDepth 100000 in
/-- C2 counterexample.  A run with one named login test: the token `"T1"`
is held in AuthState at the end of the run, yet the final documentation
transcript contains `"T1"` as a substring — response bodies are appended to
the transcript verbatim, unsanitized. -/
theorem transcript_contains_held_token :
    "T1".toList ∈ (run_tests loginEnvW loginSuiteW 0 loginSuiteW.tests
        initRunState).auth.all_access_tokens ∧
    "T1".toList <:+: (run_test_suite loginEnvW loginSuiteW none none).markdown := by
  constructor
  · decide
  · decide

/-- C2 (amended).  The sanitized curl command itself never retains a
historical access or refresh token, nor the real server URL, provided each
historical token is non-empty and shares no character with the fixed
placeholder strings or the record-id placeholder, and the server URL is
non-empty and shares no character with the display URL or those
placeholders; the response body appended next to it in the transcript is
recorded verbatim. -/
theorem sanitized_curl_token_free (curl_cmd server_url doc_url : Str)
    (auth_state : AuthState) (record_id placeholder_type : Option Str)
    (hsrv : server_url ≠ []) (hdoc : doc_url ≠ [])
    (hsd : ∀ c ∈ server_url, c ∉ doc_url ∧ c ∉ accessTokenPH ∧
      c ∉ refreshTokenPH ∧ c ∉ placeholder_type.getD [])
    (hacc : ∀ tok ∈ auth_state.all_access_tokens, tok ≠ [] ∧
      ∀ c ∈ tok, c ∉ accessTokenPH ∧ c ∉ refreshTokenPH ∧
        c ∉ placeholder_type.getD [])
    (href : ∀ tok ∈ auth_state.all_refresh_tokens, tok ≠ [] ∧
      ∀ c ∈ tok, c ∉ refreshTokenPH ∧ c ∉ placeholder_type.getD []) :
    (∀ tok ∈ auth_state.all_access_tokens,
      ¬ tok <:+: sanitize_curl_for_documentation curl_cmd server_url doc_url
          auth_state record_id placeholder_type) ∧
    (∀ tok ∈ auth_state.all_refresh_tokens,
      ¬ tok <:+: sanitize_curl_for_documentation curl_cmd server_url doc_url
          auth_state record_id placeholder_type) ∧
    ¬ server_url <:+: sanitize_curl_for_documentation curl_cmd server_url
        doc_url auth_state record_id placeholder_type := by
  refine ⟨fun tok hm => ?_, fun tok hm => ?_, ?_⟩
  · exact sanitize_no_access_token curl_cmd server_url doc_url auth_state
      record_id placeholder_type tok hm (hacc tok hm).1 (hacc tok hm).2
  · exact sanitize_no_refresh_token curl_cmd server_url doc_url auth_state
      record_id placeholder_type tok hm (href tok hm).1 (href tok hm).2
  · exact sanitize_no_server_url curl_cmd server_url doc_url auth_state
      record_id placeholder_type hsrv hdoc hsd

/-- C2 witness: a concrete sanitizer call with one access and one refresh
token in the history: neither token nor the server URL survives. -/
theorem sanitized_curl_token_free_witness :
    ("q".toList ≠ ([] : Str) ∧ "w".toList ≠ ([] : Str)) ∧
    ¬ "zz".toList <:+: sanitize_curl_for_documentation
        "curl q zz yy".toList "q".toList "w".toList sanitizeAuthW none none ∧
    ¬ "yy".toList <:+: sanitize_curl_for_documentation
        "curl q zz yy".toList "q".toList "w".toList sanitizeAuthW none none ∧
    ¬ "q".toList <:+: sanitize_curl_for_documentation
        "curl q zz yy".toList "q".toList "w".toList sanitizeAuthW none none := by
  have h := sanitized_curl_token_free "curl q zz yy".toList "q".toList
    "w".toList sanitizeAuthW none none (by decide) (by decide) (by decide)
    (by decide) (by decide)
  exact ⟨⟨by decide, by decide⟩, h.1 "zz".toList (by decide),
    h.2.1 "yy".toList (by decide), h.2.2⟩

/-- A two-user list payload also carrying a top-level `id` field. -/
def topIdListResp : JValue :=
  .obj [("id".toList, .str "top".toList),
        ("data".toList, .arr [.obj [("id".toList, .str "u1".toList)],
                              .obj [("id".toList, .str "u2".toList)]])]

/-- C6 counterexample.  A successful list-style response whose `data` array
holds two users with ids `u1`, `u2`, but which also carries a top-level
`id`: record-id capture returns the top-level value, not the second
element's identifier. -/
theorem extract_top_id_shadows_list :
    extract_record_id_from_response (some topIdListResp)
        = some (JValue.str "top".toList) ∧
    some (JValue.str "top".toList) ≠ some (JValue.str "u2".toList) := by
  refine ⟨rfl, ?_⟩
  intro h
  injection h with h1
  injection h1 with h2
  exact absurd h2 (by decide)

/-- A scanned key that cannot stop the array loop: absent, not an array, or
an empty array. -/
def notEligibleArray : Option JValue → Bool
  | some (.arr l) => l.isEmpty
  | some _ => true
  | none => true

theorem scanArrayKeys_first_hit (kvs : List (Str × JValue)) :
    ∀ (ks1 : List Str) (K : Str) (ks2 : List Str) (items : List JValue)
      (e : List (Str × JValue)) (idv : JValue),
      (∀ K' ∈ ks1, notEligibleArray (jLookup kvs K') = true) →
      jLookup kvs K = some (.arr items) → items ≠ [] →
      (if items.length > 1 then items.getD 1 .null else items.getD 0 .null)
        = .obj e →
      jLookup e "id".toList = some idv →
      scanArrayKeys kvs (ks1 ++ K :: ks2) = some idv := by
  intro ks1
  induction ks1 with
  | nil =>
    intro K ks2 items e idv _ hK hne hsel hidv
    show scanArrayKeys kvs (K :: ks2) = some idv
    unfold scanArrayKeys
    simp only [hK]
    rw [if_neg (by simpa using hne)]
    simp only [hsel, hidv]
  | cons K' ks1' ih =>
    intro K ks2 items e idv hearly hK hne hsel hidv
    have hK' := hearly K' (List.mem_cons_self K' ks1')
    have htail := ih K ks2 items e idv
      (fun k hk => hearly k (List.mem_cons_of_mem K' hk)) hK hne hsel hidv
    show scanArrayKeys kvs (K' :: (ks1' ++ K :: ks2)) = some idv
    unfold scanArrayKeys
    match hv : jLookup kvs K' with
    | none => exact htail
    | some (.arr l) =>
      rw [hv] at hK'
      have : l = [] := by simpa [notEligibleArray, List.isEmpty_iff] using hK'
      subst this
      simpa using htail
    | some .null => exact htail
    | some (.bool b) => exact htail
    | some (.num n) => exact htail
    | some (.str s) => exact htail
    | some (.obj o) => exact htail

/-- C6 (amended).  Record-id capture picks the second element of the
payload array when at least two elements exist, the first when exactly one
does — provided no earlier extraction rule fires: the response carries no
top-level `id`, no `data` dict with an `id`, no `record` dict with an `id`,
and the payload array sits under the first of `data`, `records`, `items`
that holds a non-empty array. -/
theorem extract_second_of_list (kvs : List (Str × JValue))
    (ks1 ks2 : List Str) (K : Str) (items : List JValue)
    (e : List (Str × JValue)) (idv : JValue)
    (hkeys : ks1 ++ K :: ks2 =
      ["data".toList, "records".toList, "items".toList])
    (hne : kvs ≠ [])
    (hid : jLookup kvs "id".toList = none)
    (hdata : ∀ d, jLookup kvs "data".toList = some (.obj d) →
      jLookup d "id".toList = none)
    (hrec : ∀ r, jLookup kvs "record".toList = some (.obj r) →
      jLookup r "id".toList = none)
    (hearly : ∀ K' ∈ ks1, notEligibleArray (jLookup kvs K') = true)
    (hK : jLookup kvs K = some (.arr items))
    (hitems : items ≠ [])
    (hsel : (if items.length > 1 then items.getD 1 .null else items.getD 0 .null)
      = .obj e)
    (hidv : jLookup e "id".toList = some idv) :
    extract_record_id_from_response (some (.obj kvs)) = some idv := by
  have hscan : scanArrayKeys kvs
      ["data".toList, "records".toList, "items".toList] = some idv := by
    rw [← hkeys]
    exact scanArrayKeys_first_hit kvs ks1 K ks2 items e idv hearly hK hitems
      hsel hidv
  have hdata' : (match jLookup kvs "data".toList with
      | some (.obj dkvs) => jLookup dkvs "id".toList
      | _ => none) = none := by
    match hv : jLookup kvs "data".toList with
    | none => rfl
    | some (.obj d) => exact hdata d hv
    | some .null => rfl
    | some (.bool b) => rfl
    | some (.num n) => rfl
    | some (.str s) => rfl
    | some (.arr l) => rfl
  have hrec' : (match jLookup kvs "record".toList with
      | some (.obj rkvs) => jLookup rkvs "id".toList
      | _ => none) = none := by
    match hv : jLookup kvs "record".toList with
    | none => rfl
    | some (.obj r) => exact hrec r hv
    | some .null => rfl
    | some (.bool b) => rfl
    | some (.num n) => rfl
    | some (.str s) => rfl
    | some (.arr l) => rfl
  have hne' : kvs.isEmpty = false := by simpa using hne
  unfold extract_record_id_from_response
  simp only [hne', Bool.false_eq_true, if_false, hid, hdata', hrec', hscan]

/-- The two-user list payload of the claim's scenario, with no shadowing
fields. -/
def twoUserListResp : List (Str × JValue) :=
  [("data".toList, .arr [.obj [("id".toList, .str "u1".toList)],
                         .obj [("id".toList, .str "u2".toList)]])]

/-- C6 witness: on `{data: [{id:"u1"},{id:"u2"}]}` capture returns `"u2"`,
the second element's identifier. -/
theorem extract_second_of_list_witness :
    extract_record_id_from_response (some (.obj twoUserListResp))
      = some (JValue.str "u2".toList) := by
  refine extract_second_of_list twoUserListResp []
    ["records".toList, "items".toList] "data".toList
    [.obj [("id".toList, .str "u1".toList)],
     .obj [("id".toList, .str "u2".toList)]]
    [("id".toList, .str "u2".toList)] (JValue.str "u2".toList)
    rfl (List.cons_ne_nil _ _) rfl ?_ ?_ (by intro k hk; cases hk) rfl
    (List.cons_ne_nil _ _) rfl rfl
  · intro d h
    injection h with h1
    exact JValue.noConfusion h1
  · intro r h
    rw [show jLookup twoUserListResp "record".toList = none from rfl] at h
    exact Option.noConfusion h

/-! ## Serialised-body replacement lemmas (C3) -/

theorem attach_flatMap_val {α β : Type} (xs : List α) (f : α → List β) :
    (xs.attach.flatMap fun x => f x.1) = xs.flatMap f := by
  rw [List.flatMap_def, List.flatMap_def, List.attach_map_val]

theorem jStrings_arr (xs : List JValue) :
    jStrings (.arr xs) = xs.flatMap jStrings := by
  simp only [jStrings]
  show (xs.attach.flatMap fun x => jStrings x.1) = xs.flatMap jStrings
  exact attach_flatMap_val xs jStrings

theorem jStrings_obj (kvs : List (Str × JValue)) :
    jStrings (.obj kvs) = kvs.flatMap fun kv => kv.1 :: jStrings kv.2 := by
  simp only [jStrings]
  show (kvs.attach.flatMap fun x => x.1.1 :: jStrings x.1.2) = _
  exact attach_flatMap_val kvs fun kv => kv.1 :: jStrings kv.2

theorem jReplace_arr (xs : List JValue) (t p : Str) :
    jReplace (.arr xs) t p = .arr (xs.map fun x => jReplace x t p) := by
  simp only [jReplace]
  show JValue.arr (xs.attach.map fun x => jReplace x.1 t p) = _
  exact congrArg JValue.arr (List.attach_map_val xs fun x => jReplace x t p)

theorem jReplace_obj (kvs : List (Str × JValue)) (t p : Str) :
    jReplace (.obj kvs) t p
      = .obj (kvs.map fun kv => (pyReplace kv.1 t p, jReplace kv.2 t p)) := by
  simp only [jReplace]
  show JValue.obj (kvs.attach.map fun x =>
    (pyReplace x.1.1 t p, jReplace x.1.2 t p)) = _
  exact congrArg JValue.obj
    (List.attach_map_val kvs fun kv => (pyReplace kv.1 t p, jReplace kv.2 t p))

/-- Replacing inside a body maps the replacement over every string literal
of its serialisation, in order. -/
theorem jStrings_jReplace (t p : Str) :
    ∀ v : JValue, jStrings (jReplace v t p)
      = (jStrings v).map fun s => pyReplace s t p := by
  have H : ∀ n (v : JValue), sizeOf v = n →
      jStrings (jReplace v t p) = (jStrings v).map fun s => pyReplace s t p := by
    intro n
    induction n using Nat.strongRecOn with
    | ind n ih =>
      intro v hn
      match v with
      | .null => simp [jReplace, jStrings]
      | .bool b => simp [jReplace, jStrings]
      | .num m => simp [jReplace, jStrings]
      | .str s => simp [jReplace, jStrings]
      | .arr xs =>
        rw [jReplace_arr, jStrings_arr, jStrings_arr, List.flatMap_map,
          List.map_flatMap]
        refine List.flatMap_congr fun x hx => ?_
        have hlt : sizeOf x < n := by
          have := List.sizeOf_lt_of_mem hx
          simp only [← hn, JValue.arr.sizeOf_spec]
          omega
        exact ih (sizeOf x) hlt x rfl
      | .obj kvs =>
        rw [jReplace_obj, jStrings_obj, jStrings_obj, List.flatMap_map,
          List.map_flatMap]
        refine List.flatMap_congr fun kv hkv => ?_
        have hlt : sizeOf kv.2 < n := by
          have h1 := List.sizeOf_lt_of_mem hkv
          have h2 : sizeOf kv.2 < sizeOf kv := by
            obtain ⟨k, v'⟩ := kv
            simp
          simp only [← hn, JValue.obj.sizeOf_spec]
          omega
        show pyReplace kv.1 t p :: jStrings (jReplace kv.2 t p) = _
        rw [ih (sizeOf kv.2) hlt kv.2 rfl]
        rfl
  exact fun v => H (sizeOf v) v rfl

/-- `jContains v t = false` says the token occurs in no string literal. -/
theorem jContains_eq_false_iff (v : JValue) (t : Str) :
    jContains v t = false ↔ ∀ s ∈ jStrings v, ¬ t <:+: s := by
  simp [jContains, List.any_eq_true]

/-- A token absent from a body stays absent after replacing a different
token, when the token's characters avoid the replacement value. -/
theorem jContains_jReplace_other {t t2 q : Str} (ht : t ≠ []) (ht2 : t2 ≠ [])
    (hq : q ≠ []) (hd : ∀ c ∈ t, c ∉ q) (v : JValue)
    (hv : jContains v t = false) :
    jContains (jReplace v t2 q) t = false := by
  rw [jContains_eq_false_iff] at hv ⊢
  rw [jStrings_jReplace]
  intro s hs
  rcases List.mem_map.mp hs with ⟨s0, hs0, rfl⟩
  exact not_infix_pyReplace_other ht ht2 hq hd s0 (hv s0 hs0)

theorem replaceInEndpoint_fst (ep tok v : Str) (ht : tok ≠ []) :
    (replaceInEndpoint ep tok v).1 = pyReplace ep tok v := by
  unfold replaceInEndpoint
  split
  · rfl
  · next h => exact (pyReplace_id ht ep h).symm

theorem replaceInEndpoint_not_occ {ep tok : Str} (v : Str) (h : ¬ tok <:+: ep) :
    replaceInEndpoint ep tok v = (ep, false) := by
  unfold replaceInEndpoint
  rw [if_neg h]

theorem replaceInData_not_contains {dv : JValue} {tok : Str} (v : Str)
    (h : jContains dv tok = false) :
    replaceInData (some dv) tok v = (some dv, false) := by
  unfold replaceInData
  show (if jTruthy dv = true ∧ jContains dv tok = true then
      (some (jReplace dv tok v), true) else (some dv, false)) = (some dv, false)
  rw [if_neg]
  simp [h]

/-- C3.  Precedence of `$NEXT_CURSOR` resolution when both a next-page
cursor and a captured single record id are available: with cursor state
initialized, every occurrence of `$NEXT_CURSOR` in the endpoint and the
serialised body is replaced by the cursor value; with cursor state
uninitialized it is replaced by the captured record id.  Side conditions
keep the other substitution steps out of the way: no `$PREV_CURSOR` value
and no numbered-id list is held by the context, the endpoint and body show
no `$ULID`, and the substituted value shares no character with `$ULID`. -/
theorem next_cursor_precedence (test : TestDefinition)
    (ctx : PlaceholderContext) (nc rid : Str)
    (hnc : ctx.next_cursor = some nc) (hncne : nc ≠ [])
    (hrid : ctx.captured_record_id = some rid) (hridne : rid ≠ [])
    (hprev : ctx.prev_cursor = none)
    (hids : ctx.captured_record_ids = [])
    (hncd : ∀ c ∈ ulidPH, c ∉ nc) (hridd : ∀ c ∈ ulidPH, c ∉ rid)
    (hepu : ¬ ulidPH <:+: test.endpoint)
    (hdu : ∀ d, test.data = some d → jContains d ulidPH = false) :
    ((replace_record_placeholders test ctx).1.endpoint
        = pyReplace test.endpoint nextCursorPH
            (if ctx.cursors_initialized then nc else rid)) ∧
    ((replace_record_placeholders test ctx).1.data
        = match test.data with
          | none => none
          | some d =>
            some (if jTruthy d ∧ jContains d nextCursorPH then
                jReplace d nextCursorPH
                  (if ctx.cursors_initialized then nc else rid)
              else d)) := by
  set vv : Str := if ctx.cursors_initialized then nc else rid with hvv
  have hvvne : vv ≠ [] := by
    rw [hvv]
    cases ctx.cursors_initialized
    · simpa using hridne
    · simpa using hncne
  have hvvd : ∀ c ∈ ulidPH, c ∉ vv := by
    rw [hvv]
    cases ctx.cursors_initialized
    · simpa using hridd
    · simpa using hncd
  have hncv : (if ctx.cursors_initialized then ctx.next_cursor
      else ctx.captured_record_id) = some vv := by
    rw [hvv]
    cases ctx.cursors_initialized
    · simpa using hrid
    · simpa using hnc
  have hprevf : strTruthy ctx.prev_cursor = false := by
    rw [hprev]; rfl
  have hvvt : strTruthy (some vv) = true := by
    simpa [strTruthy, List.isEmpty_iff] using hvvne
  have hridt : strTruthy ctx.captured_record_id = true := by
    rw [hrid]
    simpa [strTruthy, List.isEmpty_iff] using hridne
  have hep2 : (replaceInEndpoint test.endpoint nextCursorPH vv).1
      = pyReplace test.endpoint nextCursorPH vv :=
    replaceInEndpoint_fst _ _ _ (by decide)
  have hnoulid : ¬ ulidPH <:+: pyReplace test.endpoint nextCursorPH vv :=
    not_infix_pyReplace_other (by decide) (by decide) hvvne hvvd _ hepu
  have hstep4ep : replaceInEndpoint (replaceInEndpoint test.endpoint
      nextCursorPH vv).1 ulidPH rid
      = ((replaceInEndpoint test.endpoint nextCursorPH vv).1, false) := by
    rw [hep2]
    exact replaceInEndpoint_not_occ rid hnoulid
  have hstep4d : replaceInData (replaceInData test.data nextCursorPH vv).1
      ulidPH rid = ((replaceInData test.data nextCursorPH vv).1, false) := by
    match htd : test.data with
    | none => rfl
    | some d =>
      have hdulid : jContains d ulidPH = false := hdu d htd
      have hinner : (replaceInData (some d) nextCursorPH vv).1
          = some (if jTruthy d ∧ jContains d nextCursorPH then
              jReplace d nextCursorPH vv else d) := by
        unfold replaceInData
        show (if jTruthy d = true ∧ jContains d nextCursorPH = true then
            (some (jReplace d nextCursorPH vv), true) else (some d, false)).1 = _
        by_cases hc : jTruthy d ∧ jContains d nextCursorPH
        · rw [if_pos hc, if_pos hc]
        · rw [if_neg hc, if_neg hc]
      have hxc : jContains (if jTruthy d ∧ jContains d nextCursorPH then
          jReplace d nextCursorPH vv else d) ulidPH = false := by
        by_cases hc : jTruthy d ∧ jContains d nextCursorPH
        · rw [if_pos hc]
          exact jContains_jReplace_other (by decide) (by decide) hvvne hvvd d
            hdulid
        · rw [if_neg hc]
          exact hdulid
      show replaceInData (replaceInData (some d) nextCursorPH vv).1
          ulidPH rid = ((replaceInData (some d) nextCursorPH vv).1, false)
      rw [hinner]
      exact replaceInData_not_contains rid hxc
  have hdata2 : (replaceInData test.data nextCursorPH vv).1
      = match test.data with
        | none => none
        | some d =>
          some (if jTruthy d ∧ jContains d nextCursorPH then
              jReplace d nextCursorPH vv else d) := by
    match test.data with
    | none => rfl
    | some d =>
      unfold replaceInData
      show (if jTruthy d = true ∧ jContains d nextCursorPH = true then
          (some (jReplace d nextCursorPH vv), true) else (some d, false)).1
        = some (if jTruthy d = true ∧ jContains d nextCursorPH = true then
            jReplace d nextCursorPH vv else d)
      by_cases hc : jTruthy d ∧ jContains d nextCursorPH
      · rw [if_pos hc, if_pos hc]
      · rw [if_neg hc, if_neg hc]
  have hres : (replace_record_placeholders test ctx).1.endpoint
        = (replaceInEndpoint (replaceInEndpoint test.endpoint nextCursorPH
            vv).1 ulidPH rid).1 ∧
      (replace_record_placeholders test ctx).1.data
        = (replaceInData (replaceInData test.data nextCursorPH vv).1
            ulidPH rid).1 := by
    have hgetD : ctx.captured_record_id.getD [] = rid := by rw [hrid]; rfl
    unfold replace_record_placeholders
    simp only [hprevf, hncv, hids, hridt, hgetD, hvvt, Bool.false_eq_true,
      if_false, if_true, ne_eq, not_true_eq_false, Option.getD_some]
    simp
  refine ⟨?_, ?_⟩
  · rw [hres.1, hstep4ep, hep2]
  · rw [hres.2, hstep4d, hdata2]

/-- A paginated list request with a literal `$NEXT_CURSOR`. -/
def c3Test : TestDefinition :=
  { name := "Next".toList, cmd := "GET".toList,
    endpoint := "/items:list?cursor=$NEXT_CURSOR".toList }

/-- A context holding both an initialized next-page cursor and a captured
record id. -/
def c3Ctx : PlaceholderContext :=
  { captured_record_id := some "xyz".toList, next_cursor := some "abc".toList,
    cursors_initialized := true }

/-- C3 witness: with both cursor and captured id available and cursor state
initialized, `$NEXT_CURSOR` resolves to the cursor value `abc`, not the
captured id. -/
theorem next_cursor_precedence_witness :
    (replace_record_placeholders c3Test c3Ctx).1.endpoint
        = pyReplace c3Test.endpoint nextCursorPH
            (if c3Ctx.cursors_initialized then "abc".toList else "xyz".toList) ∧
    (replace_record_placeholders c3Test c3Ctx).1.endpoint
        = "/items:list?cursor=abc".toList := by
  refine ⟨?_, by decide⟩
  exact (next_cursor_precedence c3Test c3Ctx "abc".toList "xyz".toList rfl
    (by decide) rfl (by decide) rfl rfl (by decide) (by decide) (by decide)
    (by intro d h; cases h)).1

/-! ## Numbered-placeholder lemmas (C4) -/

theorem findNumberedMatchesF_succ (fuel : Nat) (s : Str) :
    findNumberedMatchesF (fuel + 1) s =
      if ulidPH.isPrefixOf s then
        let ds := (s.drop 5).takeWhile Char.isDigit
        if ds.isEmpty then
          match s with
          | [] => []
          | _ :: rest => findNumberedMatchesF fuel rest
        else ds :: findNumberedMatchesF fuel (s.drop (5 + ds.length))
      else
        match s with
        | [] => []
        | _ :: rest => findNumberedMatchesF fuel rest := rfl

/-- Every reported match really occurs in the text, with its `$ULID` head. -/
theorem findNumberedMatchesF_occurs :
    ∀ (fuel : Nat) (s m : Str), s.length < fuel →
      m ∈ findNumberedMatchesF fuel s → (ulidPH ++ m) <:+: s := by
  intro fuel
  induction fuel with
  | zero => intro s m h; omega
  | succ f ih =>
    intro s m hlen hm
    rw [findNumberedMatchesF_succ] at hm
    by_cases hpre : ulidPH.isPrefixOf s
    · rw [if_pos hpre] at hm
      have hpre' : ulidPH <+: s := List.isPrefixOf_iff_prefix.mp hpre
      have hs5 : 5 ≤ s.length := by
        have := hpre'.length_le
        simpa [ulidPH] using this
      simp only at hm
      by_cases hds : ((s.drop 5).takeWhile Char.isDigit).isEmpty
      · rw [if_pos hds] at hm
        match s, hm with
        | c :: rest, hm =>
          have : m ∈ findNumberedMatchesF f rest := hm
          have hr : rest.length < f := by
            simp at hlen; omega
          exact List.infix_cons (ih rest m hr this)
      · rw [if_neg hds] at hm
        rcases List.mem_cons.mp hm with heqm | hm'
        · subst heqm
          have heq : ulidPH ++ s.drop 5 = s := by
            have := List.prefix_iff_eq_append.mp hpre'
            simpa [ulidPH] using this
          have hdpre : (s.drop 5).takeWhile Char.isDigit <+: s.drop 5 :=
            List.takeWhile_prefix Char.isDigit
          have h2 : ulidPH ++ (s.drop 5).takeWhile Char.isDigit
              <+: ulidPH ++ s.drop 5 :=
            (List.prefix_append_right_inj ulidPH).mpr hdpre
          rw [heq] at h2
          exact h2.isInfix
        · have hd : (s.drop (5 + ((s.drop 5).takeWhile Char.isDigit).length)).length
              < f := by
            simp only [List.length_drop]
            omega
          have := ih _ m hd hm'
          exact this.trans (List.drop_suffix _ s).isInfix
    · rw [if_neg hpre] at hm
      match s, hm with
      | [], hm => cases hm
      | c :: rest, hm =>
        have hr : rest.length < f := by
          simp at hlen; omega
        exact List.infix_cons (ih rest m hr hm)

/-- Every reported match is a non-empty run of ASCII digits. -/
theorem findNumberedMatchesF_digits :
    ∀ (fuel : Nat) (s m : Str), s.length < fuel →
      m ∈ findNumberedMatchesF fuel s → m ≠ [] ∧ ∀ c ∈ m, c.isDigit := by
  intro fuel
  induction fuel with
  | zero => intro s m h; omega
  | succ f ih =>
    intro s m hlen hm
    rw [findNumberedMatchesF_succ] at hm
    by_cases hpre : ulidPH.isPrefixOf s
    · rw [if_pos hpre] at hm
      simp only at hm
      by_cases hds : ((s.drop 5).takeWhile Char.isDigit).isEmpty
      · rw [if_pos hds] at hm
        match s, hm with
        | c :: rest, hm =>
          have hr : rest.length < f := by
            simp at hlen; omega
          exact ih rest m hr hm
      · rw [if_neg hds] at hm
        rcases List.mem_cons.mp hm with heqm | hm'
        · subst heqm
          exact ⟨by simpa [List.isEmpty_iff] using hds,
            fun c hc => List.mem_takeWhile_imp hc⟩
        · have hpre' : ulidPH <+: s := List.isPrefixOf_iff_prefix.mp hpre
          have hs5 : 5 ≤ s.length := by
            have := hpre'.length_le
            simpa [ulidPH] using this
          have hd : (s.drop (5 + ((s.drop 5).takeWhile Char.isDigit).length)).length
              < f := by
            simp only [List.length_drop]
            omega
          exact ih _ m hd hm'
    · rw [if_neg hpre] at hm
      match s, hm with
      | [], hm => cases hm
      | c :: rest, hm =>
        have hr : rest.length < f := by
          simp at hlen; omega
        exact ih rest m hr hm

theorem findNumberedMatches_occurs {s m : Str}
    (hm : m ∈ findNumberedMatches s) : (ulidPH ++ m) <:+: s :=
  findNumberedMatchesF_occurs (s.length + 1) s m (by omega) hm

theorem findNumberedMatches_digits {s m : Str}
    (hm : m ∈ findNumberedMatches s) : m ≠ [] ∧ ∀ c ∈ m, c.isDigit :=
  findNumberedMatchesF_digits (s.length + 1) s m (by omega) hm

theorem digitsToNat_acc :
    ∀ (b : Str) (acc : Nat),
      b.foldl (fun acc c => acc * 10 + (c.toNat - '0'.toNat)) acc
        = acc * 10 ^ b.length + digitsToNat b := by
  intro b
  induction b with
  | nil => intro acc; simp [digitsToNat]
  | cons c b' ih =>
    intro acc
    show b'.foldl (fun acc c => acc * 10 + (c.toNat - '0'.toNat))
      (acc * 10 + (c.toNat - '0'.toNat)) = _
    rw [ih]
    have hcons : digitsToNat (c :: b')
        = (c.toNat - '0'.toNat) * 10 ^ b'.length + digitsToNat b' := by
      show b'.foldl (fun acc c => acc * 10 + (c.toNat - '0'.toNat))
        (0 * 10 + (c.toNat - '0'.toNat)) = _
      rw [ih]
      ring_nf
    rw [hcons]
    simp [List.length_cons, pow_succ]
    ring

theorem digitsToNat_append (a b : Str) :
    digitsToNat (a ++ b) = digitsToNat a * 10 ^ b.length + digitsToNat b := by
  show (a ++ b).foldl (fun acc c => acc * 10 + (c.toNat - '0'.toNat)) 0 = _
  rw [List.foldl_append]
  exact digitsToNat_acc b (digitsToNat a)

/-- The value of a strict extension of a digit run is at least tenfold. -/
theorem digitsToNat_proper_ge {m m' : Str} (h : m <+: m') (hne : m ≠ m')
    (h1 : 1 ≤ digitsToNat m) : 10 * digitsToNat m ≤ digitsToNat m' := by
  obtain ⟨r, rfl⟩ := h
  have hr : r ≠ [] := by
    intro h0
    exact hne (by simp [h0])
  have hrlen : 1 ≤ r.length := by
    cases r with
    | nil => exact absurd rfl hr
    | cons a b => simp
  rw [digitsToNat_append]
  have : 10 ^ 1 ≤ 10 ^ r.length := Nat.pow_le_pow_right (by omega) hrlen
  have h10 : 10 ≤ 10 ^ r.length := by simpa using this
  calc 10 * digitsToNat m ≤ digitsToNat m * 10 ^ r.length := by
        rw [Nat.mul_comm]
        exact Nat.mul_le_mul_left _ h10
    _ ≤ digitsToNat m * 10 ^ r.length + digitsToNat r := Nat.le_add_right _ _

/-- An out-of-range match survives the whole numbered-replacement fold,
provided no in-range match's digit string is a prefix of its digits:
distinct dollar-headed patterns that are not prefixes of one another can
never overlap, and an in-range extension of an out-of-range digit string is
numerically impossible. -/
theorem replace_numbered_survives_fold (ids : List Str) (m : Str)
    (hmne : m ≠ []) (hmdig : ∀ c ∈ m, c.isDigit)
    (hoor : ids.length < digitsToNat m) :
    ∀ (l : List Str) (s : Str),
      (∀ m' ∈ l, m' ≠ [] ∧ (∀ c ∈ m', c.isDigit) ∧
        (1 ≤ digitsToNat m' → digitsToNat m' ≤ ids.length → ¬ m' <+: m)) →
      (ulidPH ++ m) <:+: s →
      (ulidPH ++ m) <:+: l.foldl
        (fun t m' =>
          let n := digitsToNat m'
          if 1 ≤ n ∧ n ≤ ids.length then
            pyReplace t (ulidPH ++ m') (ids.getD (n - 1) [])
          else t) s := by
  intro l
  induction l with
  | nil => intro s _ h; exact h
  | cons m' l' ih =>
    intro s hprops hocc
    have hm' := hprops m' (List.mem_cons_self m' l')
    have hrest : ∀ x ∈ l', x ≠ [] ∧ (∀ c ∈ x, c.isDigit) ∧
        (1 ≤ digitsToNat x → digitsToNat x ≤ ids.length → ¬ x <+: m) :=
      fun x hx => hprops x (List.mem_cons_of_mem m' hx)
    refine ih _ hrest ?_
    show (ulidPH ++ m) <:+:
      (if 1 ≤ digitsToNat m' ∧ digitsToNat m' ≤ ids.length then
        pyReplace s (ulidPH ++ m') (ids.getD (digitsToNat m' - 1) [])
      else s)
    by_cases hin : 1 ≤ digitsToNat m' ∧ digitsToNat m' ≤ ids.length
    · rw [if_pos hin]
      have ha : '$' ∉ "ULID".toList ++ m := by
        intro hmem
        rcases List.mem_append.mp hmem with h | h
        · exact absurd h (by decide)
        · exact absurd (hmdig _ h) (by decide)
      have hb : '$' ∉ "ULID".toList ++ m' := by
        intro hmem
        rcases List.mem_append.mp hmem with h | h
        · exact absurd h (by decide)
        · exact absurd (hm'.2.1 _ h) (by decide)
      have h1 : ¬ ('$' :: ("ULID".toList ++ m'))
          <+: ('$' :: ("ULID".toList ++ m)) := by
        intro hp
        have h2 := (List.cons_prefix_cons.mp hp).2
        have h3 := (List.prefix_append_right_inj "ULID".toList).mp h2
        exact hm'.2.2 hin.1 hin.2 h3
      have h2 : ¬ ('$' :: ("ULID".toList ++ m))
          <+: ('$' :: ("ULID".toList ++ m')) := by
        intro hp
        have h3 := (List.cons_prefix_cons.mp hp).2
        have h4 := (List.prefix_append_right_inj "ULID".toList).mp h3
        rcases eq_or_ne m m' with rfl | hne
        · omega
        · have h5 := digitsToNat_proper_ge h4 hne (by omega)
          omega
      exact infix_pyReplace_dollar ha hb h1 h2 s hocc
    · rw [if_neg hin]
      exact hocc

/-- A request with an out-of-range numbered placeholder, and a context
that has also captured a single record id. -/
def c4CapTest : TestDefinition :=
  { name := "Get".toList, cmd := "GET".toList,
    endpoint := "/x/$ULID5:get".toList }

/-- A context holding one numbered id and a captured single record id. -/
def c4CapCtx : PlaceholderContext :=
  { captured_record_id := some "X".toList,
    captured_record_ids := ["a".toList] }

/-- C4 counterexample.  With one captured numbered id and a captured single
record id `"X"`, the out-of-range placeholder `$ULID5` (5 exceeds the 1
captured id) is not left as literal text: the bare-`$ULID` step rewrites
its head, leaving `/x/X5:get`. -/
theorem numbered_out_of_range_destroyed :
    (["a".toList] : List Str).length < digitsToNat "5".toList ∧
    "5".toList ∈ findNumberedMatches c4CapTest.endpoint ∧
    ¬ ("$ULID5".toList <:+:
        (replace_record_placeholders c4CapTest c4CapCtx).1.endpoint) ∧
    (replace_record_placeholders c4CapTest c4CapCtx).1.endpoint
      = "/x/X5:get".toList := by
  refine ⟨by decide, by decide, by decide, by decide⟩

/-- A numbered match of a serialised body lies inside one of its string
literals. -/
theorem jFindNumberedMatches_exists {v : JValue} {m : Str}
    (hm : m ∈ jFindNumberedMatches v) :
    ∃ s ∈ jStrings v, m ∈ findNumberedMatches s := by
  unfold jFindNumberedMatches at hm
  rcases List.mem_flatMap.mp hm with ⟨s, hs, hms⟩
  exact ⟨s, hs, hms⟩

/-- A numbered match of a serialised body is a non-empty digit run. -/
theorem jFindNumberedMatches_digits {v : JValue} {m : Str}
    (hm : m ∈ jFindNumberedMatches v) :
    m ≠ [] ∧ ∀ c ∈ m, c.isDigit := by
  rcases jFindNumberedMatches_exists hm with ⟨s, _, hms⟩
  exact findNumberedMatches_digits hms

/-- A numbered match's full placeholder text occurs in the serialised
body. -/
theorem jContains_of_match {d : JValue} {m : Str}
    (hm : m ∈ jFindNumberedMatches d) :
    jContains d (ulidPH ++ m) = true := by
  rcases jFindNumberedMatches_exists hm with ⟨s0, hs0, hms0⟩
  simp only [jContains, List.any_eq_true, decide_eq_true_eq]
  exact ⟨s0, hs0, findNumberedMatches_occurs hms0⟩

/-- The numbered-replacement fold over a body maps the corresponding fold
over every string literal of its serialisation. -/
theorem jStrings_foldl_jReplace (ids : List Str) (l : List Str) :
    ∀ v : JValue,
      jStrings (l.foldl (fun w m =>
          let n := digitsToNat m
          if 1 ≤ n ∧ n ≤ ids.length then
            jReplace w (ulidPH ++ m) (ids.getD (n - 1) [])
          else w) v)
        = (jStrings v).map fun s => l.foldl (fun t m =>
            let n := digitsToNat m
            if 1 ≤ n ∧ n ≤ ids.length then
              pyReplace t (ulidPH ++ m) (ids.getD (n - 1) [])
            else t) s := by
  induction l with
  | nil =>
    intro v
    simp only [List.foldl_nil]
    exact (List.map_id' (jStrings v)).symm
  | cons m l' ih =>
    intro v
    simp only [List.foldl_cons]
    rw [ih]
    by_cases hin : 1 ≤ digitsToNat m ∧ digitsToNat m ≤ ids.length
    · rw [if_pos hin, jStrings_jReplace, List.map_map]
      refine List.map_congr_left fun s _ => ?_
      rw [if_pos hin]
      rfl
    · rw [if_neg hin]
      refine List.map_congr_left fun s _ => ?_
      rw [if_neg hin]

/-- An out-of-range numbered match survives the body's numbered-replacement
fold: its placeholder text still occurs in the serialisation afterwards. -/
theorem jReplaceNumbered_survives (d : JValue) (ids : List Str) (m : Str)
    (hm : m ∈ jFindNumberedMatches d)
    (hoor : ids.length < digitsToNat m)
    (hpf : ∀ m' ∈ jFindNumberedMatches d,
      1 ≤ digitsToNat m' → digitsToNat m' ≤ ids.length → ¬ m' <+: m) :
    jContains (jReplaceNumbered d ids) (ulidPH ++ m) = true := by
  have hdig := jFindNumberedMatches_digits hm
  rcases jFindNumberedMatches_exists hm with ⟨s0, hs0, hms0⟩
  have hocc : (ulidPH ++ m) <:+: s0 := findNumberedMatches_occurs hms0
  have hsurv := replace_numbered_survives_fold ids m hdig.1 hdig.2 hoor
    (jFindNumberedMatches d) s0
    (fun m' hm' => ⟨(jFindNumberedMatches_digits hm').1,
      (jFindNumberedMatches_digits hm').2, hpf m' hm'⟩) hocc
  unfold jReplaceNumbered
  simp only [jContains]
  rw [jStrings_foldl_jReplace ids (jFindNumberedMatches d) d]
  simp only [List.any_eq_true, decide_eq_true_eq]
  exact ⟨_, List.mem_map_of_mem _ hs0, hsurv⟩

/-- C4 (amended).  In the contexts the orchestrator actually feeds numbered
placeholders — a temporary context holding only the freshly fetched id list,
with no captured single record id and no cursor state — an out-of-range
numbered placeholder `$ULID<N>` survives placeholder resolution as literal
text, in the resolved endpoint and in the resolved body alike, provided no
in-range match's digit string is a prefix of `N`'s digits; resolution is a
total function and never raises. -/
theorem numbered_out_of_range_left_literal (test : TestDefinition)
    (ctx : PlaceholderContext)
    (hcap : ctx.captured_record_id = none)
    (hprev : ctx.prev_cursor = none)
    (hinit : ctx.cursors_initialized = false) :
    (∀ m, m ∈ findNumberedMatches test.endpoint →
      ctx.captured_record_ids.length < digitsToNat m →
      (∀ m' ∈ findNumberedMatches test.endpoint, 1 ≤ digitsToNat m' →
        digitsToNat m' ≤ ctx.captured_record_ids.length → ¬ m' <+: m) →
      (ulidPH ++ m) <:+: (replace_record_placeholders test ctx).1.endpoint) ∧
    (∀ d m, test.data = some d → m ∈ jFindNumberedMatches d →
      ctx.captured_record_ids.length < digitsToNat m →
      (∀ m' ∈ jFindNumberedMatches d, 1 ≤ digitsToNat m' →
        digitsToNat m' ≤ ctx.captured_record_ids.length → ¬ m' <+: m) →
      ∃ dv, (replace_record_placeholders test ctx).1.data = some dv ∧
        jContains dv (ulidPH ++ m) = true) := by
  have hscap : strTruthy (none : Option Str) = false := rfl
  have hep : (replace_record_placeholders test ctx).1.endpoint =
      (if ctx.captured_record_ids ≠ [] then
        replace_numbered_placeholders test.endpoint ctx.captured_record_ids
      else test.endpoint) := by
    unfold replace_record_placeholders
    simp only [hprev, hcap, hinit, hscap, Bool.false_eq_true, if_false]
    by_cases hids : ctx.captured_record_ids = []
    · simp [hids]
    · simp [hids]
  have hdata : (replace_record_placeholders test ctx).1.data =
      (if ctx.captured_record_ids ≠ [] then
        (match test.data with
          | some dv =>
            if jTruthy dv then
              some (jReplaceNumbered dv ctx.captured_record_ids)
            else some dv
          | none => none)
      else test.data) := by
    unfold replace_record_placeholders
    simp only [hprev, hcap, hinit, hscap, Bool.false_eq_true, if_false]
    by_cases hids : ctx.captured_record_ids = []
    · simp [hids]
    · simp [hids]
  constructor
  · intro m hm hoor hpf
    have hdig := findNumberedMatches_digits hm
    have hocc := findNumberedMatches_occurs hm
    rw [hep]
    by_cases hids : ctx.captured_record_ids = []
    · rw [if_neg (by simp [hids])]
      exact hocc
    · rw [if_pos hids]
      unfold replace_numbered_placeholders
      exact replace_numbered_survives_fold ctx.captured_record_ids m hdig.1
        hdig.2 hoor (findNumberedMatches test.endpoint) test.endpoint
        (fun m' hm' => ⟨(findNumberedMatches_digits hm').1,
          (findNumberedMatches_digits hm').2, hpf m' hm'⟩) hocc
  · intro d m hd hm hoor hpf
    rw [hdata]
    by_cases hids : ctx.captured_record_ids = []
    · rw [if_neg (by simp [hids]), hd]
      exact ⟨d, rfl, jContains_of_match hm⟩
    · rw [if_pos hids, hd]
      by_cases htr : jTruthy d
      · refine ⟨jReplaceNumbered d ctx.captured_record_ids, ?_,
          jReplaceNumbered_survives d ctx.captured_record_ids m hm hoor hpf⟩
        show (if jTruthy d then
            some (jReplaceNumbered d ctx.captured_record_ids)
          else some d) = _
        rw [if_pos htr]
      · refine ⟨d, ?_, jContains_of_match hm⟩
        show (if jTruthy d then
            some (jReplaceNumbered d ctx.captured_record_ids)
          else some d) = _
        rw [if_neg htr]

/-- The temporary context the orchestrator builds for a numbered-placeholder
test: only the freshly fetched id list is set. -/
def c4TempCtx : PlaceholderContext := { captured_record_ids := ["a".toList] }

/-- A body carrying an out-of-range numbered placeholder. -/
def c4BodyVal : JValue := .obj [("ref".toList, .str "$ULID5".toList)]

/-- A request carrying the out-of-range `$ULID5` in both its endpoint and
its body. -/
def c4TempTest : TestDefinition :=
  { name := "Probe".toList, cmd := "POST".toList,
    endpoint := "/x/$ULID5:get".toList, data := some c4BodyVal }

/-- C4 witness: in the temporary-context regime, `$ULID5` with one captured
id stays literal through placeholder resolution, in the endpoint and in the
body. -/
theorem numbered_out_of_range_left_literal_witness :
    (c4TempCtx.captured_record_id = none ∧
      c4TempCtx.captured_record_ids.length < digitsToNat "5".toList) ∧
    ("$ULID5".toList <:+:
      (replace_record_placeholders c4TempTest c4TempCtx).1.endpoint) ∧
    (∃ dv, (replace_record_placeholders c4TempTest c4TempCtx).1.data
        = some dv ∧
      jContains dv "$ULID5".toList = true) := by
  have h := numbered_out_of_range_left_literal c4TempTest c4TempCtx rfl rfl rfl
  have hstr : ∀ s : Str, jStrings (.str s) = [s] := fun s => by
    simp [jStrings]
  have hjs : jStrings c4BodyVal = ["ref".toList, "$ULID5".toList] := by
    show jStrings (.obj [("ref".toList, .str "$ULID5".toList)]) = _
    rw [jStrings_obj]
    simp [hstr]
  have hjm : jFindNumberedMatches c4BodyVal = ["5".toList] := by
    show (jStrings c4BodyVal).flatMap findNumberedMatches = _
    rw [hjs]
    decide
  refine ⟨⟨rfl, by decide⟩, ?_, ?_⟩
  · exact h.1 "5".toList (by decide) (by decide) (by decide)
  · refine h.2 c4BodyVal "5".toList rfl ?_ (by decide) ?_
    · rw [hjm]
      exact List.mem_singleton_self _
    · intro m' hm' h1 h2
      rw [hjm] at hm'
      have hq : m' = "5".toList := List.mem_singleton.mp hm'
      subst hq
      exact absurd h2 (by decide)

/-- C8.  If a successful password-change test's re-login fails (the login
helper returns nothing), the orchestrator issues the re-login call with the
current username and the new password, leaves `AuthState` exactly as it was
before the test, and continues with the remaining tests; no exception
propagates (the step is a total function).  The test is classified as a
password change only — not as a login or token refresh, the one-of
classification of the spec. -/
theorem relogin_failure_preserves_auth
    (env : Env) (suite : TestSuite) (i : Nat) (test : TestDefinition)
    (st : RunState) (npw u : Str)
    (hpc : detect_password_change (prepare_test env i test st.auth st.ctx).1
      = some npw)
    (hnl : detect_login (prepare_test env i test st.auth st.ctx).1 = false)
    (hnr : detect_token_refresh (prepare_test env i test st.auth st.ctx).1
      = false)
    (h2 : startsWith2 (env.exec i).status = true)
    (hu : st.auth.current_username = some u)
    (hnpw : npw ≠ []) (hune : u ≠ [])
    (hfail : env.relogin u npw = none) :
    (step_test env suite i test st).auth = st.auth ∧
    (step_test env suite i test st).relogin_calls
      = st.relogin_calls ++ [(u, npw)] ∧
    ∀ rest : List TestDefinition,
      run_tests env suite i (test :: rest) st
        = run_tests env suite (i + 1) rest (step_test env suite i test st) := by
  refine ⟨?_, ?_, fun rest => rfl⟩ <;>
  · unfold step_test
    simp only [hpc, hnl, hnr, h2, hu, hfail, should_relogin_after_test,
      Option.isSome_some, Bool.true_and, Bool.and_true, Bool.or_self,
      Bool.false_eq_true, if_false, ite_self, eq_self_iff_true, if_true,
      hnpw, hune, ne_eq, not_false_iff, and_self]

/-- A password-change test.  Its endpoint carries a numbered placeholder so
the request also travels the numbered side channel (with an empty fetched
id list, which leaves the request untouched). -/
def c8Test : TestDefinition :=
  { name := "PwChange".toList, cmd := "POST".toList,
    endpoint := "/auth:me$ULID1".toList,
    data := some (.obj [("old_password".toList, .str "a".toList),
                        ("password".toList, .str "b".toList)]) }

/-- An environment whose re-login always fails. -/
def c8Env : Env :=
  { exec := fun _ =>
      { curl_command := [], status := "200".toList, body := [] },
    fetch_ids := fun _ => [],
    relogin := fun _ _ => none }

def c8Suite : TestSuite :=
  { docURL := "https://api.example.com".toList,
    serverURL := "http://localhost:3000".toList }

/-- The pre-change state: a logged-in user. -/
def c8State : RunState :=
  { auth := { current_username := some "admin".toList },
    ctx := {}, markdown_lines := [], all_tests_passed := true,
    relogin_calls := [] }

/-- C8 witness: a concrete successful password change whose re-login fails
leaves the auth state untouched and records the attempted call. -/
theorem relogin_failure_preserves_auth_witness :
    (detect_password_change
        (prepare_test c8Env 0 c8Test c8State.auth c8State.ctx).1
      = some "b".toList ∧
      c8Env.relogin "admin".toList "b".toList = none) ∧
    (step_test c8Env c8Suite 0 c8Test c8State).auth = c8State.auth ∧
    (step_test c8Env c8Suite 0 c8Test c8State).relogin_calls
      = c8State.relogin_calls ++ [("admin".toList, "b".toList)] := by
  have h := relogin_failure_preserves_auth c8Env c8Suite 0 c8Test c8State
    "b".toList "admin".toList (by decide) (by decide) (by decide) rfl rfl
    (by decide) (by decide) rfl
  exact ⟨⟨by decide, rfl⟩, h.1, h.2.1⟩

/-! ## Heap instrumentation for the defensive-copy frame property

Python mutates `TestDefinition` objects in place, so "the suite is
unmodified" is a statement about object identity.  The heap model makes it
explicit: objects live in an allocation list addressed by index; each loop
iteration reads the original test at its address, allocates `_copy_test`'s
copy at a fresh address, and every substitution writes only to that fresh
address.  This mirrors `run_test_suite`'s body, where
`replace_record_placeholders` and `replace_auth_placeholders` receive
`test_copy` and never the original. -/

/-- Default object for out-of-range heap reads. -/
def heapDefault : TestDefinition := { name := [], cmd := [], endpoint := [] }

/-- One loop iteration over the heap: read the original, allocate its copy
at the fresh address `h.length`, apply the placeholder substitutions to the
copy in place, and step the run state. -/
def step_test_heap (env : Env) (suite : TestSuite) (i : Nat)
    (h : List TestDefinition) (addr : Nat) (st : RunState) :
    List TestDefinition × RunState :=
  let orig := h.getD addr heapDefault
  ((h ++ [copy_test orig]).set h.length
    (prepare_test env i orig st.auth st.ctx).1,
   step_test env suite i orig st)

/-- The heap-instrumented loop over the tests' addresses. -/
def run_tests_heap (env : Env) (suite : TestSuite) :
    Nat → List Nat → List TestDefinition × RunState →
      List TestDefinition × RunState
  | _, [], hst => hst
  | i, addr :: rest, hst =>
    run_tests_heap env suite (i + 1) rest
      (step_test_heap env suite i hst.1 addr hst.2)

/-- Writing the prepared copy at the fresh address leaves every previously
allocated cell unchanged. -/
theorem heap_write_frame (h : List TestDefinition) (c p t0 : TestDefinition)
    (a : Nat) (ha : a < h.length) :
    ((h ++ [c]).set h.length p).getD a t0 = h.getD a t0 := by
  have h1 : h.length ≠ a := by omega
  rw [List.getD_eq_getElem?_getD, List.getD_eq_getElem?_getD,
    List.getElem?_set_ne h1, List.getElem?_append_left ha]

/-- Each iteration allocates exactly one object. -/
theorem step_test_heap_length (env : Env) (suite : TestSuite) (i : Nat)
    (h : List TestDefinition) (addr : Nat) (st : RunState) :
    (step_test_heap env suite i h addr st).1.length = h.length + 1 := by
  unfold step_test_heap
  simp

/-- No iteration of the instrumented loop writes to a pre-existing cell. -/
theorem run_tests_heap_frame (env : Env) (suite : TestSuite)
    (t0 : TestDefinition) (addrs : List Nat) :
    ∀ (i : Nat) (h : List TestDefinition) (st : RunState) (a : Nat),
      a < h.length →
      (run_tests_heap env suite i addrs (h, st)).1.getD a t0 = h.getD a t0 := by
  induction addrs with
  | nil => intro i h st a _; rfl
  | cons addr rest ih =>
    intro i h st a ha
    show (run_tests_heap env suite (i + 1) rest
        (step_test_heap env suite i h addr st)).1.getD a t0 = h.getD a t0
    have h2 := ih (i + 1) (step_test_heap env suite i h addr st).1
      (step_test_heap env suite i h addr st).2 a
      (by rw [step_test_heap_length]; omega)
    have h3 : (step_test_heap env suite i h addr st).1.getD a t0
        = h.getD a t0 := by
      unfold step_test_heap
      exact heap_write_frame h _ _ t0 a ha
    exact h2.trans h3

/-- The instrumented loop runs the same tests as the plain loop: reading
each original through the heap yields the original value, so the resulting
run state is the plain one. -/
theorem run_tests_heap_agrees (env : Env) (suite : TestSuite)
    (t0 : TestDefinition) (addrs : List Nat) :
    ∀ (i : Nat) (h h0 : List TestDefinition) (st : RunState),
      h0.length ≤ h.length →
      (∀ b, b < h0.length → h.getD b t0 = h0.getD b t0) →
      (∀ b ∈ addrs, b < h0.length) →
      (run_tests_heap env suite i addrs (h, st)).2
        = run_tests env suite i (addrs.map fun b => h0.getD b t0) st := by
  induction addrs with
  | nil => intro i h h0 st _ _ _; rfl
  | cons addr rest ih =>
    intro i h h0 st hle hagree hmem
    have haddr : addr < h0.length := hmem addr (List.mem_cons_self addr rest)
    have horig : h.getD addr heapDefault = h0.getD addr t0 := by
      rw [List.getD_eq_getElem h heapDefault (by omega),
        ← List.getD_eq_getElem h t0 (by omega)]
      exact hagree addr haddr
    show (run_tests_heap env suite (i + 1) rest
        (step_test_heap env suite i h addr st)).2
      = run_tests env suite (i + 1) (rest.map fun b => h0.getD b t0)
          (step_test env suite i (h0.getD addr t0) st)
    have hst2 : (step_test_heap env suite i h addr st).2
        = step_test env suite i (h0.getD addr t0) st := by
      show step_test env suite i (h.getD addr heapDefault) st
        = step_test env suite i (h0.getD addr t0) st
      rw [horig]
    have hnew := ih (i + 1) (step_test_heap env suite i h addr st).1 h0
      (step_test_heap env suite i h addr st).2
      (le_trans hle (by rw [step_test_heap_length]; omega))
      (fun b hb => by
        have hfr : (step_test_heap env suite i h addr st).1.getD b t0
            = h.getD b t0 := by
          unfold step_test_heap
          exact heap_write_frame h _ _ t0 b (by omega)
        rw [hfr]
        exact hagree b hb)
      (fun b hb => hmem b (List.mem_cons_of_mem addr hb))
    calc (run_tests_heap env suite (i + 1) rest
          (step_test_heap env suite i h addr st)).2
        = run_tests env suite (i + 1) (rest.map fun b => h0.getD b t0)
            (step_test_heap env suite i h addr st).2 := hnew
      _ = run_tests env suite (i + 1) (rest.map fun b => h0.getD b t0)
            (step_test env suite i (h0.getD addr t0) st) := by rw [hst2]

/-- C9.  A suite run never modifies the suite's test objects: in the
heap-instrumented loop, every pre-existing cell — in particular each
original `TestDefinition` — holds its pre-run value after the loop, the
instrumented run computes exactly the plain run over the original tests,
and the defensive copy transfers the seven declared fields (name, cmd,
endpoint, headers, data, details, notes) unchanged. -/
theorem suite_tests_unmodified (env : Env) (suite : TestSuite)
    (addrs : List Nat) (i : Nat) (h : List TestDefinition) (st : RunState)
    (a : Nat) (t0 : TestDefinition)
    (ha : a < h.length) (haddrs : ∀ b ∈ addrs, b < h.length) :
    (run_tests_heap env suite i addrs (h, st)).1.getD a t0 = h.getD a t0 ∧
    (run_tests_heap env suite i addrs (h, st)).2
      = run_tests env suite i (addrs.map fun b => h.getD b t0) st ∧
    ∀ t : TestDefinition,
      (copy_test t).name = t.name ∧ (copy_test t).cmd = t.cmd ∧
      (copy_test t).endpoint = t.endpoint ∧
      (copy_test t).headers = t.headers ∧ (copy_test t).data = t.data ∧
      (copy_test t).details = t.details ∧ (copy_test t).notes = t.notes :=
  ⟨run_tests_heap_frame env suite t0 addrs i h st a ha,
   run_tests_heap_agrees env suite t0 addrs i h h st le_rfl
     (fun _ _ => rfl) haddrs,
   fun _ => ⟨rfl, rfl, rfl, rfl, rfl, rfl, rfl⟩⟩

/-- A two-test heap for the frame witness. -/
def c9Heap : List TestDefinition :=
  [{ name := "A".toList, cmd := "GET".toList, endpoint := "/x:list".toList },
   { name := "B".toList, cmd := "GET".toList, endpoint := "/y:get".toList }]

/-- C9 witness: running both tests of a concrete two-test heap leaves the
first original cell unchanged, and the copy keeps its endpoint. -/
theorem suite_tests_unmodified_witness :
    (0 < c9Heap.length ∧ ∀ b ∈ [0, 1], b < c9Heap.length) ∧
    (run_tests_heap c8Env c8Suite 0 [0, 1] (c9Heap, c8State)).1.getD 0
        heapDefault
      = c9Heap.getD 0 heapDefault ∧
    (copy_test (c9Heap.getD 0 heapDefault)).endpoint
      = (c9Heap.getD 0 heapDefault).endpoint := by
  have h := suite_tests_unmodified c8Env c8Suite [0, 1] 0 c9Heap c8State 0
    heapDefault (by decide) (by decide)
  exact ⟨⟨by decide, by decide⟩, h.1, (h.2.2 _).2.2.1⟩

end Moon
